import Mathlib

/-!
# go-get-slack-chat: a shallow embedding of `main.go`

The program reads a date, fetches a list of authorized names, the workspace
members and the history of one Slack channel, groups the messages by sender
and writes one sheet per authorized sender into an xlsx workbook.

The embedding follows `main.go` function by function.  Network replies, the
spreadsheet library and the sorting library are the environment: a reply is
given by what `exec` and `json.Unmarshal` make of it, and every call that is
visible from outside (a request, a printed line, a workbook operation) is
recorded as an `Event`, so that a run of `main` is the list of its events.

Go strings are byte sequences; Go's `int64`/`uint64` arithmetic wraps.
-/

namespace SlackChat

/-! ## Strings -/

/-- A Go string is a sequence of bytes; a byte is a natural number (below 256
on every real input).  `len`, slicing, `strings.HasPrefix` and
`strings.Compare` all work on bytes. -/
abbrev GoString := List Nat

/-- UTF-8 encoding of one code point. -/
def utf8 (c : Nat) : List Nat :=
  if c < 128 then [c]
  else if c < 2048 then [192 + c / 64, 128 + c % 64]
  else if c < 65536 then [224 + c / 4096, 128 + c / 64 % 64, 128 + c % 64]
  else [240 + c / 262144, 128 + c / 4096 % 64, 128 + c / 64 % 64, 128 + c % 64]

/-- The Go string written by a literal: its UTF-8 bytes. -/
def str (s : String) : GoString := s.data.flatMap (fun c => utf8 c.toNat)

/-- A Go `error` value: `none` is `nil`, `some m` is an error whose message is `m`. -/
abbrev GoError := Option GoString

/-- Model of `strings.HasPrefix(s, p)`. -/
def HasPrefix (s p : GoString) : Bool := p.isPrefixOf s

/-- Model of `strings.Compare(a, b)`: bytewise lexicographic comparison. -/
def Compare : GoString → GoString → Int
  | [], [] => 0
  | [], _ :: _ => -1
  | _ :: _, [] => 1
  | a :: as, b :: bs => if a < b then -1 else if b < a then 1 else Compare as bs

/-! ## Machine integers -/

/-- Wrap an integer into `int64`. -/
def int64 (x : Int) : Int :=
  (x + 9223372036854775808) % 18446744073709551616 - 9223372036854775808

/-- Wrap an integer into `uint64`. -/
def uint64 (x : Int) : Int := x % 18446744073709551616

/-! ## Data model (`main.go`, lines 24-82) -/

structure SlackMessage where
  Type_ : GoString
  User : GoString
  Text : GoString
  Ts : GoString
  ThreadTs : GoString
  ReplyCount : Int
deriving DecidableEq, Repr

structure ResponseMetadata where
  Cursor : GoString
deriving DecidableEq, Repr

structure SlackConversationsHistoryResponse where
  Ok : Bool
  Messages : List SlackMessage
  Error : GoString
  Needed : GoString
  Metadata : ResponseMetadata
deriving DecidableEq, Repr

structure Members where
  Id : GoString
  Name : GoString
  RealName : GoString
deriving DecidableEq, Repr

structure SlackConversationsUsersResponse where
  Ok : Bool
  Members : List Members
  Error : GoString
  Needed : GoString
deriving DecidableEq, Repr

structure UserName where
  Name : GoString
deriving DecidableEq, Repr

structure UserNamesResponse where
  UserName : List UserName
deriving DecidableEq, Repr

structure config where
  SlackBotToken : GoString
  SlackUserToken : GoString
  Channeld : GoString
  GsUrl : GoString
  GsAccessToken : GoString
deriving DecidableEq, Repr

/-! ## The `time` package -/

/-- A fixed-offset location: seconds east of UTC. -/
structure Location where
  offset : Int
deriving DecidableEq, Repr

def UTC : Location := ⟨0⟩

/-- Model of `time.FixedZone(name, offset)`. -/
def FixedZone (offset : Int) : Location := ⟨offset⟩

/-- Model of `time.Time` without a monotonic reading: `ext` is the `int64`
count of seconds since January 1 of year 1, 00:00:00 UTC. -/
structure Time where
  ext : Int
  nsec : Int
  loc : Location
deriving DecidableEq, Repr

def secondsPerDay : Int := 86400
def absoluteZeroYear : Int := -292277022399
def absoluteToInternal : Int := -9223371966579724800
def internalToAbsolute : Int := 9223371966579724800
def unixToInternal : Int := 62135596800
def internalToUnix : Int := -62135596800

/-- The table `daysBefore`: days in a non-leap year before month `i + 1`. -/
def daysBefore : Nat → Int
  | 0 => 0
  | 1 => 31
  | 2 => 59
  | 3 => 90
  | 4 => 120
  | 5 => 151
  | 6 => 181
  | 7 => 212
  | 8 => 243
  | 9 => 273
  | 10 => 304
  | 11 => 334
  | _ => 365

/-- Model of `isLeap`.  Go's `%` truncates, Lean's rounds down; the two agree on
whether the remainder is zero. -/
def isLeap (year : Int) : Bool :=
  year % 4 == 0 && (year % 100 != 0 || year % 400 == 0)

/-- Model of `norm(hi, lo, base)`: bring `lo` into `[0, base)`, carrying into `hi`. -/
def norm (hi lo base : Int) : Int × Int :=
  let (hi, lo) :=
    if lo < 0 then
      let n := (-lo - 1) / base + 1
      (hi - n, lo + n * base)
    else (hi, lo)
  if lo ≥ base then
    let n := lo / base
    (hi + n, lo - n * base)
  else (hi, lo)

/-- Model of `daysSinceEpoch(year)`: days from the absolute epoch to January 1
of `year`, in `uint64`. -/
def daysSinceEpoch (year : Int) : Int :=
  let y := uint64 (year - absoluteZeroYear)
  let n := y / 400
  let y := y - 400 * n
  let d := 146097 * n
  let n := y / 100
  let y := y - 100 * n
  let d := d + 36524 * n
  let n := y / 4
  let y := y - 4 * n
  let d := d + 1461 * n
  let n := y
  d + 365 * n

/-- Model of `unixTime(sec, nsec)` with an explicit location. -/
def unixTime (sec nsec : Int) (loc : Location) : Time :=
  ⟨int64 (sec + unixToInternal), nsec, loc⟩

/-- Model of `time.Date(year, month, day, hour, min, sec, nsec, loc)` for a
fixed-offset location. -/
def Date (year month day hour min sec nsec : Int) (loc : Location) : Time :=
  let m := month - 1
  let (year, m) := norm year m 12
  let month := m + 1
  let (sec, nsec) := norm sec nsec 1000000000
  let (min, sec) := norm min sec 60
  let (hour, min) := norm hour min 60
  let (day, hour) := norm day hour 24
  let d := daysSinceEpoch year
  let d := d + daysBefore (month - 1).toNat
  let d := if isLeap year && month ≥ 3 then d + 1 else d
  let d := uint64 (d + uint64 (day - 1))
  let abs := uint64 (d * secondsPerDay)
  let abs := uint64 (abs + uint64 (hour * 3600 + min * 60 + sec))
  let unix := int64 (int64 abs + (absoluteToInternal + internalToUnix))
  let unix := int64 (unix - loc.offset)
  unixTime unix nsec loc

/-- Model of `time.Unix(sec, 0)`; `loc` is `time.Local`. -/
def Unix (sec : Int) (loc : Location) : Time := unixTime sec 0 loc

/-- Model of `t.Unix()`. -/
def Time.Unix (t : Time) : Int := int64 (t.ext + internalToUnix)

/-- Model of `t.abs()`: seconds since the absolute epoch, shifted into the
location of `t`, in `uint64`. -/
def Time.abs (t : Time) : Int :=
  uint64 (t.Unix + t.loc.offset + (unixToInternal + internalToAbsolute))

/-- Model of `absDate(abs, true)`: year, month and day of month. -/
def absDate (abs : Int) : Int × Int × Int :=
  let d := abs / 86400
  let n := d / 146097
  let y := 400 * n
  let d := d - 146097 * n
  let n := d / 36524
  let n := n - n / 4
  let y := y + 100 * n
  let d := d - 36524 * n
  let n := d / 1461
  let y := y + 4 * n
  let d := d - 1461 * n
  let n := d / 365
  let n := n - n / 4
  let y := y + n
  let d := d - 365 * n
  let year := int64 (int64 y + absoluteZeroYear)
  let day := d
  if isLeap year && day == 59 then (year, 2, 29)
  else
    let day := if isLeap year && day > 59 then day - 1 else day
    let month := day / 31
    let end_ := daysBefore (month + 1).toNat
    let (month, begin) :=
      if day ≥ end_ then (month + 1, end_) else (month, daysBefore month.toNat)
    (year, month + 1, day - begin + 1)

/-- Model of `absClock(abs)`: hour, minute and second of the day. -/
def absClock (abs : Int) : Int × Int × Int :=
  let sec := abs % 86400
  let hour := sec / 3600
  let sec := sec - hour * 3600
  let min := sec / 60
  let sec := sec - min * 60
  (hour, min, sec)

def Time.Year (t : Time) : Int := (absDate t.abs).1
def Time.Month (t : Time) : Int := (absDate t.abs).2.1
def Time.Day (t : Time) : Int := (absDate t.abs).2.2

/-- Model of `t.AddDate(years, months, days)`. -/
def Time.AddDate (t : Time) (years months days : Int) : Time :=
  let (year, month, day) := absDate t.abs
  let (hour, min, sec) := absClock t.abs
  Date (year + years) (month + months) (day + days) hour min sec t.nsec t.loc

/-- Model of `t.Before(u)` for times without a monotonic reading. -/
def Time.Before (t u : Time) : Bool :=
  t.ext < u.ext || (t.ext == u.ext && t.nsec < u.nsec)

/-- Decimal digits of `u`, most significant first, onto `acc`; `fuel` bounds the
number of digits. -/
def digitsOnto : Nat → Nat → List Nat → List Nat
  | 0, _, acc => acc
  | fuel + 1, u, acc =>
    if u = 0 then acc else digitsOnto fuel (u / 10) ((48 + u % 10) :: acc)

/-- Model of `appendInt(b, x, width)` on an empty buffer: sign, zero padding
up to `width` digits, digits. -/
def appendInt (x : Int) (width : Nat) : GoString :=
  let u := x.natAbs
  let ds := if u = 0 then [48] else digitsOnto 20 u []
  (if x < 0 then [45] else []) ++ List.replicate (width - ds.length) 48 ++ ds

/-- Model of `t.Format("2006-01-02")`. -/
def Time.FormatDate (t : Time) : GoString :=
  let (year, month, day) := absDate t.abs
  appendInt year 4 ++ [45] ++ appendInt month 2 ++ [45] ++ appendInt day 2

/-- Model of `t.Format("15:04:05")`. -/
def Time.FormatClock (t : Time) : GoString :=
  let (hour, min, sec) := absClock t.abs
  appendInt hour 2 ++ [58] ++ appendInt min 2 ++ [58] ++ appendInt sec 2

/-- Model of `t.Format("200601")`. -/
def Time.FormatMonth (t : Time) : GoString :=
  let (year, month, _) := absDate t.abs
  appendInt year 4 ++ appendInt month 2

/-! ## The `strconv` package -/

inductive NumError where
  | ErrSyntax
  | ErrRange
deriving DecidableEq, Repr

/-- The loop of `strconv.ParseUint(s, 10, 64)`: `n` is the value read so far.
A byte that is not a decimal digit is a syntax error; a value that leaves
`uint64` is a range error, reported with the largest `uint64`. -/
def parseUintLoop : List Nat → Int → Int × Option NumError
  | [], n => (n, none)
  | c :: cs, n =>
    if 48 ≤ c ∧ c ≤ 57 then
      let d : Int := c - 48
      if n ≥ 18446744073709551615 / 10 + 1 then (18446744073709551615, some .ErrRange)
      else
        let n := uint64 (n * 10)
        let n1 := uint64 (n + d)
        if n1 < n ∨ n1 > 18446744073709551615 then (18446744073709551615, some .ErrRange)
        else parseUintLoop cs n1
    else (0, some .ErrSyntax)

/-- Model of `strconv.ParseUint(s, 10, 64)`. -/
def ParseUint (s : GoString) : Int × Option NumError :=
  if s = [] then (0, some .ErrSyntax) else parseUintLoop s 0

/-- Model of `strconv.ParseInt(s, 10, 64)`: value and error.  On a range error
the value is the nearest `int64`. -/
def ParseInt (s : GoString) : Int × Option NumError :=
  match s with
  | [] => (0, some .ErrSyntax)
  | c :: rest =>
    let (neg, s) :=
      if c = 43 then (false, rest) else if c = 45 then (true, rest) else (false, c :: rest)
    let (un, err) := ParseUint s
    if err = some .ErrSyntax then (0, err)
    else if !neg && un ≥ 9223372036854775808 then (9223372036854775807, some .ErrRange)
    else if neg && un > 9223372036854775808 then (-9223372036854775808, some .ErrRange)
    else
      let n := int64 un
      (if neg then int64 (-n) else n, none)

/-! ## The environment -/

/-- What one `exec` call followed by `json.Unmarshal` into `α` comes to. -/
inductive Reply (α : Type) where
  /-- The call `exec` returned a non-nil error (request, transport or read failure). -/
  | execError (err : GoString)
  /-- The body was read and `json.Unmarshal` rejected it. -/
  | unmarshalError (err : GoString)
  /-- The body was read and decoded into `v`. -/
  | json (v : α)
deriving Repr

/-- Everything `main` reads from outside, after `loadConfig` and `time.Parse`
have succeeded. -/
structure World where
  cfg : config
  /-- Reply of the authorized-name store. -/
  userNames : Reply UserNamesResponse
  /-- Reply of `users.list`. -/
  usersList : Reply SlackConversationsUsersResponse
  /-- Reply to the `n`-th `conversations.history` request, counted from 0. -/
  history : Nat → Reply SlackConversationsHistoryResponse
  /-- The error `f.NewSheet(name)` returns. -/
  newSheet : GoString → GoError
  /-- The error `f.SaveAs(path)` returns. -/
  saveAs : GoString → GoError
  /-- The error `f.Close()` returns. -/
  close : GoError

/-- What a run does that is visible from outside. -/
inductive Event where
  | userNamesRequest (yyyyMM : GoString)
  | usersListRequest
  /-- A `conversations.history` request with its `start`, `end` and `cursor`
  parameters; an empty cursor means the parameter is absent. -/
  | historyRequest (channel : GoString) (start end_ : Int) (cursor : GoString)
  /-- A line printed by `fmt.Println(label, err)`; `label` is empty for `fmt.Println(err)`. -/
  | println (label : GoString) (err : GoError)
  | newFile
  | newSheet (name : GoString)
  | setSheetCol (sheet cell : GoString) (col : List GoString)
  | setColWidth (sheet : GoString)
  | saveAs (path : GoString)
  | closeFile
  /-- The run panics with an out-of-range slice. -/
  | panicSlice
deriving DecidableEq, Repr

/-! ## The fetchers (`main.go`, lines 214-327) -/

/-- Model of `getUserName` (lines 215-244): the events of the call (the request,
and the error printed when the body does not parse) and the names returned;
every failure yields `nil`. -/
def getUserName (reply : Reply UserNamesResponse) (t : Time) : List Event × List UserName :=
  let yyyyMM := t.FormatMonth
  match reply with
  | .execError _ => ([.userNamesRequest yyyyMM], [])
  | .unmarshalError err => ([.userNamesRequest yyyyMM, .println [] (some err)], [])
  | .json apiResponse => ([.userNamesRequest yyyyMM], apiResponse.UserName)

/-- Model of `getMembers` (lines 247-260). -/
def getMembers (reply : Reply SlackConversationsUsersResponse) : List Members × GoError :=
  match reply with
  | .execError err => ([], some err)
  | .unmarshalError err => ([], some err)
  | .json apiResponse => (apiResponse.Members, none)

/-- Model of `exeSlackApi` (lines 310-327): messages, next cursor, error. -/
def exeSlackApi (reply : Reply SlackConversationsHistoryResponse) :
    List SlackMessage × GoString × GoError :=
  match reply with
  | .execError err => ([], [], some err)
  | .unmarshalError err => ([], [], some err)
  | .json apiResponse =>
    if !apiResponse.Ok then
      ([], [], some (str "slack API error: " ++ apiResponse.Error
        ++ str ", needed: " ++ apiResponse.Needed))
    else (apiResponse.Messages, apiResponse.Metadata.Cursor, none)

/-- The `for` loop of `fetchSlackMessages` (lines 287-304).  `n` counts the
requests made so far, `log` holds their events; `none` means the fuel ran out
before the loop ended. -/
def fetchLoop (server : Nat → Reply SlackConversationsHistoryResponse)
    (channelId : GoString) (start end_ : Time) :
    Nat → Nat → GoString → List SlackMessage → List Event →
      Option (List Event × List SlackMessage)
  | 0, _, _, _, _ => none
  | fuel + 1, n, cursor, allMsg, log =>
    let (msg, c, _) := exeSlackApi (server n)
    let log := log ++ [Event.historyRequest channelId start.Unix end_.Unix cursor]
    let cursor := c
    if cursor.length < 1 then some (log, allMsg)
    else fetchLoop server channelId start end_ fuel (n + 1) cursor (allMsg ++ msg) log

/-- Model of `fetchSlackMessages` (lines 263-307): the requests made, the
messages and the error returned. -/
def fetchSlackMessages (server : Nat → Reply SlackConversationsHistoryResponse) (fuel : Nat)
    (channelId : GoString) (_target start end_ : Time) :
    Option (List Event × List SlackMessage × GoError) :=
  match fetchLoop server channelId start end_ fuel 0 [] [] [] with
  | none => none
  | some (log, allMsg) => some (log, allMsg, none)

/-! ## Sorting and grouping (the `koazee` stream, lines 126-129) -/

/-- Model of `stream.Sort(cmp)`: the items in ascending order of the
comparator (an insertion sort; `cmp a b ≤ 0` reads "a is not after b"). -/
def Sort_ {α : Type} (cmp : α → α → Int) (items : List α) : List α :=
  items.insertionSort (fun a b => cmp a b ≤ 0)

/-- Append `v` to the group of `k`, opening the group when it is new. -/
def groupInsert (k : GoString) (v : SlackMessage) :
    List (GoString × List SlackMessage) → List (GoString × List SlackMessage)
  | [] => [(k, [v])]
  | (k', vs) :: rest =>
    if k' = k then (k', vs ++ [v]) :: rest else (k', vs) :: groupInsert k v rest

/-- Model of `stream.GroupBy(key)`: the map from key to the items with that key,
in the order of the stream.  The map is a list of its entries; Go visits a map
in no fixed order, the model visits the keys in order of first appearance.  An
empty stream is taken to give the empty map. -/
def GroupBy (key : SlackMessage → GoString) (items : List SlackMessage) :
    List (GoString × List SlackMessage) :=
  items.foldl (fun out v => groupInsert (key v) v out) []

/-- The entry of a map for key `k`; a missing key has the empty slice. -/
def lookupGroup (k : GoString) : List (GoString × List SlackMessage) → List SlackMessage
  | [] => []
  | (k', vs) :: rest => if k' = k then vs else lookupGroup k rest

/-- The comparator `main` sorts with (lines 127-129). -/
def compareTs (person otherPerson : SlackMessage) : Int :=
  Compare person.Ts otherPerson.Ts

/-- The map `out` of `main` (lines 126-129): the fetched messages sorted by
timestamp string, then grouped by sender. -/
def groupMessages (messages : List SlackMessage) : List (GoString × List SlackMessage) :=
  GroupBy (fun val => val.User) (Sort_ compareTs messages)

/-! ## The report (`main.go`, lines 137-188) -/

/-- The sheet name chosen for the group of sender `key` (lines 140-149): the
real name of the last member with that id whose real name starts with an
authorized name, and the empty string when there is none. -/
def sheetNameFor (members : List Members) (userNameRes : List UserName) (key : GoString) :
    GoString :=
  members.foldl
    (fun sheetName v =>
      if v.Id = key then
        userNameRes.foldl
          (fun sheetName u => if HasPrefix v.RealName u.Name then v.RealName else sheetName)
          sheetName
      else sheetName)
    []

/-- Model of `msg[:len(msg)-7]` (line 168): `none` is the out-of-range panic. -/
def sliceTs (msg : GoString) : Option GoString :=
  if msg.length < 7 then none else some (msg.take (msg.length - 7))

/-- The three columns of a sheet. -/
structure Columns where
  yyyymmdd : List GoString
  hhmmss : List GoString
  slice : List GoString
deriving DecidableEq, Repr

/-- The moment `main` derives from a timestamp's whole seconds (lines 168-170). -/
def dtFromUnix (local_ : Location) (ts : GoString) : Time :=
  Unix (ParseInt ts).1 local_

/-- The loop over one group's messages (lines 163-177); `none` is a panic. -/
def renderRows (local_ : Location) (start : Time) :
    List SlackMessage → Columns → Option Columns
  | [], cols => some cols
  | m :: rest, cols =>
    match sliceTs m.Ts with
    | none => none
    | some ts =>
      let dt := dtFromUnix local_ ts
      if dt.Before start then renderRows local_ start rest cols
      else
        renderRows local_ start rest
          ⟨cols.yyyymmdd ++ [dt.FormatDate], cols.hhmmss ++ [dt.FormatClock],
            cols.slice ++ [m.Text]⟩

/-- How one turn of the loop over the groups ends. -/
inductive Flow where
  | next
  | returned
  | panicked
deriving DecidableEq, Repr

/-- One turn of the loop over the groups (lines 139-183). -/
def groupStep (w : World) (local_ : Location) (members : List Members)
    (userNameRes : List UserName) (start : Time) (key : GoString)
    (value : List SlackMessage) : List Event × Flow :=
  let sheetName := sheetNameFor members userNameRes key
  if sheetName.length < 1 then ([], .next)
  else
    match w.newSheet sheetName with
    | some err => ([.newSheet sheetName, .println [] (some err)], .returned)
    | none =>
      match renderRows local_ start value ⟨[], [], []⟩ with
      | none => ([.newSheet sheetName, .panicSlice], .panicked)
      | some cols =>
        ([.newSheet sheetName,
          .setSheetCol sheetName (str "A1") cols.yyyymmdd,
          .setSheetCol sheetName (str "B1") cols.hhmmss,
          .setSheetCol sheetName (str "C1") cols.slice,
          .setColWidth sheetName], .next)

/-- The loop over the groups (lines 138-183). -/
def groupLoop (w : World) (local_ : Location) (members : List Members)
    (userNameRes : List UserName) (start : Time) :
    List (GoString × List SlackMessage) → List Event × Flow
  | [] => ([], .next)
  | (key, value) :: rest =>
    match groupStep w local_ members userNameRes start key value with
    | (evs, .next) =>
      let (evs2, flow) := groupLoop w local_ members userNameRes start rest
      (evs ++ evs2, flow)
    | (evs, flow) => (evs, flow)

/-- The deferred `f.Close()` (lines 131-135). -/
def closeEvents (w : World) : List Event :=
  match w.close with
  | none => [.closeFile]
  | some err => [.closeFile, .println [] (some err)]

/-- The report part of `main` (lines 125-188): from the fetched messages to the
saved workbook. -/
def report (w : World) (local_ : Location) (t : Time) (members : List Members)
    (userNameRes : List UserName) (start : Time) (messages : List SlackMessage) :
    List Event :=
  let out := groupMessages messages
  match groupLoop w local_ members userNameRes start out with
  | (evs, .next) =>
    let path := t.FormatMonth ++ str ".xlsx"
    [Event.newFile] ++ evs ++ [.saveAs path]
      ++ (match w.saveAs path with
          | none => []
          | some err => [.println [] (some err)])
      ++ closeEvents w
  | (evs, _) => [Event.newFile] ++ evs ++ closeEvents w

/-! ## `main` (lines 89-189) -/

/-- The zone `loc` of line 90, which line 91 also makes `time.Local`. -/
def loc : Location := FixedZone (9 * 60 * 60)

/-- The value `start` of line 117. -/
def start (t : Time) : Time := (Date t.Year t.Month 1 0 0 0 0 loc).AddDate 0 0 (-1)

/-- The value `end` of line 118. -/
def end_ (t : Time) : Time := Date t.Year t.Month t.Day 23 59 59 59 loc

/-- Model of `main` from line 105 on, for the date `t` that `time.Parse` made of
the input: the events of the run, or `none` when the fuel does not suffice for
the pagination loop. -/
def main (w : World) (fuel : Nat) (t : Time) : Option (List Event) :=
  let (evs, userNameRes) := getUserName w.userNames t
  if userNameRes.length < 1 then
    some (evs ++ [.println (str "Error get UserName:") none])
  else
    let (members, err) := getMembers w.usersList
    let evs := evs ++ [.usersListRequest]
    if err ≠ none then some (evs ++ [.println (str "Error get member:") err])
    else
      match fetchSlackMessages w.history fuel w.cfg.Channeld t (start t) (end_ t) with
      | none => none
      | some (log, messages, err) =>
        let evs := evs ++ log
        if err ≠ none then
          some (evs ++ [.println (str "Error fetching slack message:") err])
        else some (evs ++ report w loc t members userNameRes (start t) messages)

/-! ## Auxiliary definitions for the calendar proofs -/

/-- Model of `daysIn(m, year)`. -/
def daysIn (m year : Int) : Int :=
  if m = 2 ∧ isLeap year then 29 else daysBefore m.toNat - daysBefore (m - 1).toNat

/-- The first half of `absDate`: years since the absolute epoch and day of the
year, from the days since the absolute epoch. -/
def yearDay (d : Int) : Int × Int :=
  let n := d / 146097
  let y := 400 * n
  let d := d - 146097 * n
  let n := d / 36524
  let n := n - n / 4
  let y := y + 100 * n
  let d := d - 36524 * n
  let n := d / 1461
  let y := y + 4 * n
  let d := d - 1461 * n
  let n := d / 365
  let n := n - n / 4
  let y := y + n
  let d := d - 365 * n
  (y, d)

/-- The second half of `absDate`: month and day of the month, from the day of
the year. -/
def monthDay (leap : Bool) (day : Int) : Int × Int :=
  if leap && day == 59 then (2, 29)
  else
    let day := if leap && day > 59 then day - 1 else day
    let month := day / 31
    let end_ := daysBefore (month + 1).toNat
    let (month, begin) :=
      if day ≥ end_ then (month + 1, end_) else (month, daysBefore month.toNat)
    (month + 1, day - begin + 1)

/-- Day of the year (from 0) of day `d` of month `m`. -/
def yday (year m d : Int) : Int :=
  daysBefore (m - 1).toNat + (if (isLeap year && decide (m ≥ 3)) = true then 1 else 0) + (d - 1)

/-- The month before month `m` of year `y`. -/
def prevMonth (y m : Int) : Int × Int := if m = 1 then (y - 1, 12) else (y, m - 1)

/-! ## Fixtures -/

/-- A scripted history endpoint: request `n` gets page `n`; past the script the
transport fails. -/
def serve (pages : List SlackConversationsHistoryResponse) :
    Nat → Reply SlackConversationsHistoryResponse :=
  fun n =>
    match pages.get? n with
    | some p => .json p
    | none => .execError (str "EOF")

/-- A message of sender `user` with timestamp `ts` and text `text`. -/
def mkMessage (user ts text : String) : SlackMessage :=
  ⟨str "message", str user, str text, str ts, [], 0⟩

/-- A successful history page. -/
def mkPage (messages : List SlackMessage) (cursor : String) :
    SlackConversationsHistoryResponse :=
  ⟨true, messages, [], [], ⟨str cursor⟩⟩

/-- The events of the history requests with the given cursors. -/
def requests (channelId : GoString) (start end_ : Time) (cursors : List GoString) :
    List Event :=
  cursors.map (fun c => Event.historyRequest channelId start.Unix end_.Unix c)

/-! ## Reading decimal digits -/

/-- The natural number a string of decimal digits denotes, continuing from `n`. -/
def decimalFrom (n : Nat) (ds : List Nat) : Nat :=
  ds.foldl (fun n c => 10 * n + (c - 48)) n

/-- The natural number a string of decimal digits denotes. -/
def decimal (ds : List Nat) : Nat := decimalFrom 0 ds

/-! ## Auxiliary definitions for the report -/

/-- Member `v` has the id `key` and a real name that starts with an authorized name. -/
def authorized (userNameRes : List UserName) (key : GoString) (v : Members) : Bool :=
  v.Id = key && userNameRes.any (fun u => HasPrefix v.RealName u.Name)

/-- The last member, in list order, that is `authorized` for `key`. -/
def lastMatch (members : List Members) (userNameRes : List UserName) (key : GoString) :
    Option Members :=
  (members.filter (authorized userNameRes key)).getLast?

/-- The moment derived from a message: its timestamp without the last 7 bytes,
parsed as whole seconds. -/
def moment (local_ : Location) (m : SlackMessage) : Time :=
  dtFromUnix local_ (m.Ts.take (m.Ts.length - 7))

/-- The messages of a group whose moment is not before `start`. -/
def kept (local_ : Location) (start : Time) (value : List SlackMessage) : List SlackMessage :=
  value.filter (fun m => !(moment local_ m).Before start)

/-- A world in which the workbook never fails; the network replies are given. -/
def worldOf (userNames : List UserName) (members : List Members)
    (pages : List SlackConversationsHistoryResponse) : World where
  cfg := ⟨str "xoxb", str "xoxp", str "C1", str "https://example.invalid/%s/%s", str "token"⟩
  userNames := .json ⟨userNames⟩
  usersList := .json ⟨true, members, [], []⟩
  history := serve pages
  newSheet := fun _ => none
  saveAs := fun _ => none
  close := none

/-- The end of `report` after the loop over the groups (lines 185-188 and the
deferred `f.Close()`): the workbook is saved only when the loop ran to its end. -/
def ending (w : World) (t : Time) : Flow → List Event
  | .next =>
    [Event.saveAs (t.FormatMonth ++ str ".xlsx")]
      ++ (match w.saveAs (t.FormatMonth ++ str ".xlsx") with
          | none => []
          | some err => [.println [] (some err)])
      ++ closeEvents w
  | _ => closeEvents w

/-- The events of the turn of group `g` in the loop over the groups. -/
def turnEvents (w : World) (local_ : Location) (members : List Members)
    (userNameRes : List UserName) (start : Time) (g : GoString × List SlackMessage) :
    List Event :=
  (groupStep w local_ members userNameRes start g.1 g.2).1

/-- The turn of group `g` runs to its end, so that the loop goes on to the next group. -/
abbrev completes (w : World) (local_ : Location) (members : List Members)
    (userNameRes : List UserName) (start : Time) (g : GoString × List SlackMessage) : Prop :=
  (groupStep w local_ members userNameRes start g.1 g.2).2 = Flow.next

/-- A sheet named `name` is created in a turn with events `turn`: `f.NewSheet(name)`
is called there and returns no error. -/
abbrev sheetCreated (w : World) (name : GoString) (turn : List Event) : Prop :=
  Event.newSheet name ∈ turn ∧ w.newSheet name = none

/-- The input date 2024-03-15 as `time.Parse` returns it. -/
def march15 : Time := Date 2024 3 15 0 0 0 0 UTC

/-- The member `U1`, real name `Taro Yamada`. -/
def taro : Members := ⟨str "U1", str "taro", str "Taro Yamada"⟩

/-- Three messages of `U1`: one second before 2024-02-29T00:00:00+09:00, at that
moment, and at 2024-03-01T12:00:00+09:00. -/
def taroMessages : List SlackMessage :=
  [mkMessage "U1" "1709132399.000100" "early", mkMessage "U1" "1709132400.000100" "edge",
    mkMessage "U1" "1709262000.000100" "hello"]

/-- A world with the authorized name `Taro`, the member `taro` and two history
pages: `taroMessages` with cursor `c1`, then an empty last page. -/
def taroWorld : World :=
  worldOf [⟨str "Taro"⟩] [taro] [mkPage taroMessages "c1", mkPage [] ""]

/-- A `NewSheet` that refuses a name holding a slash, as the xlsx format does. -/
def rejectSlash (name : GoString) : GoError :=
  if 47 ∈ name then some (str "invalid sheet name") else none

/-- A world like `worldOf` whose `NewSheet` is `rejectSlash`. -/
def strictWorld (userNames : List UserName) (members : List Members)
    (pages : List SlackConversationsHistoryResponse) : World :=
  { worldOf userNames members pages with newSheet := rejectSlash }

/-- The member `U1` with the real name `Taro/Yamada`. -/
def taroSlash : Members := ⟨str "U1", str "taro", str "Taro/Yamada"⟩

/-- The member `U1` with an empty real name. -/
def taroBlank : Members := ⟨str "U1", str "bot", []⟩

/-- A message of `U2`, earlier than those of `taroMessages`. -/
def jiroMessage : SlackMessage := mkMessage "U2" "1709000000.000100" "yo"

/-! ## The calendar: `time.Date` and `absDate` are inverse on valid dates -/

theorem absDate_eq (abs : Int) :
    absDate abs =
      (int64 (int64 (yearDay (abs / 86400)).1 + absoluteZeroYear),
        monthDay (isLeap (int64 (int64 (yearDay (abs / 86400)).1 + absoluteZeroYear)))
          (yearDay (abs / 86400)).2) := by
  simp only [absDate, yearDay, monthDay]
  split <;> rfl

theorem norm_id (hi lo base : Int) (h0 : 0 ≤ lo) (h1 : lo < base) : norm hi lo base = (hi, lo) := by
  simp [norm, not_lt.mpr h0, not_le.mpr h1]

theorem div_of_bounds (x k q r : Int) (hk : 0 < k) (hx : x = k * q + r) (h0 : 0 ≤ r)
    (h1 : r < k) : x / k = q := by
  subst hx
  rw [Int.add_comm, Int.add_mul_ediv_left _ _ (Int.ne_of_gt hk), Int.ediv_eq_zero_of_lt h0 h1]
  simp

theorem monthDay_spec (leap : Bool) (m d : Int) (hm : 1 ≤ m ∧ m ≤ 12) (hd1 : 1 ≤ d)
    (hd2 : d ≤ if m = 2 ∧ leap then 29 else daysBefore m.toNat - daysBefore (m - 1).toNat) :
    monthDay leap (daysBefore (m - 1).toNat + (if leap ∧ m ≥ 3 then 1 else 0) + (d - 1))
      = (m, d) := by
  obtain ⟨h1, h2⟩ := hm
  cases leap <;> interval_cases m <;> simp [daysBefore] at hd2 <;>
    interval_cases d <;> decide

theorem yearDay_decomp (a b c e yd : Int) (hb : 0 ≤ b ∧ b < 4) (hc : 0 ≤ c ∧ c < 25)
    (he : 0 ≤ e ∧ e < 4) (h0 : 0 ≤ yd)
    (h1 : yd < 365 ∨ (yd = 365 ∧ e = 3 ∧ (c < 24 ∨ b = 3))) :
    yearDay (146097 * a + 36524 * b + 1461 * c + 365 * e + yd)
      = (400 * a + 100 * b + 4 * c + e, yd) := by
  have s1 : (146097 * a + 36524 * b + 1461 * c + 365 * e + yd) / 146097 = a :=
    div_of_bounds _ _ a (36524 * b + 1461 * c + 365 * e + yd) (by omega) (by ring) (by omega)
      (by omega)
  have e1 : 146097 * a + 36524 * b + 1461 * c + 365 * e + yd - 146097 * a
      = 36524 * b + 1461 * c + 365 * e + yd := by ring
  have s2 : (36524 * b + 1461 * c + 365 * e + yd) / 36524
      - (36524 * b + 1461 * c + 365 * e + yd) / 36524 / 4 = b := by
    by_cases hs : 1461 * c + 365 * e + yd < 36524
    · have : (36524 * b + 1461 * c + 365 * e + yd) / 36524 = b :=
        div_of_bounds _ _ b (1461 * c + 365 * e + yd) (by omega) (by ring) (by omega) hs
      rw [this]; omega
    · have hb3 : b = 3 := by omega
      have hv : 36524 * b + 1461 * c + 365 * e + yd = 146096 := by omega
      rw [hv, hb3]; decide
  have e2 : 36524 * b + 1461 * c + 365 * e + yd - 36524 * b = 1461 * c + 365 * e + yd := by ring
  have s3 : (1461 * c + 365 * e + yd) / 1461 = c :=
    div_of_bounds _ _ c (365 * e + yd) (by omega) (by ring) (by omega) (by omega)
  have e3 : 1461 * c + 365 * e + yd - 1461 * c = 365 * e + yd := by ring
  have s4 : (365 * e + yd) / 365 - (365 * e + yd) / 365 / 4 = e := by
    by_cases hs : yd < 365
    · have : (365 * e + yd) / 365 = e :=
        div_of_bounds _ _ e yd (by omega) (by ring) (by omega) hs
      rw [this]; omega
    · have he3 : e = 3 := by omega
      have hv : 365 * e + yd = 1460 := by omega
      rw [hv, he3]; decide
  simp only [yearDay, s1, e1, s2, e2, s3, e3, s4, Prod.mk.injEq]
  exact ⟨trivial, by omega⟩

/-- Years since the absolute epoch split into 400-, 100-, 4- and 1-year parts. -/
theorem year_split (Y : Int) :
    ∃ a b c e : Int, Y = 400 * a + 100 * b + 4 * c + e ∧ (0 ≤ b ∧ b < 4) ∧ (0 ≤ c ∧ c < 25)
      ∧ (0 ≤ e ∧ e < 4) :=
  ⟨Y / 400, Y % 400 / 100, Y % 100 / 4, Y % 4, by omega, by omega, by omega, by omega⟩

theorem daysSinceEpoch_decomp (year a b c e : Int) (hy : absoluteZeroYear ≤ year)
    (hy2 : year ≤ 1000000000)
    (hY : year - absoluteZeroYear = 400 * a + 100 * b + 4 * c + e)
    (hb : 0 ≤ b ∧ b < 4) (hc : 0 ≤ c ∧ c < 25) (he : 0 ≤ e ∧ e < 4) :
    daysSinceEpoch year = 146097 * a + 36524 * b + 1461 * c + 365 * e := by
  have hu : uint64 (year - absoluteZeroYear) = 400 * a + 100 * b + 4 * c + e := by
    simp only [uint64, absoluteZeroYear] at *; omega
  have h1 : (400 * a + 100 * b + 4 * c + e) / 400 = a :=
    div_of_bounds _ _ a (100 * b + 4 * c + e) (by omega) (by ring) (by omega) (by omega)
  have e1 : 400 * a + 100 * b + 4 * c + e - 400 * a = 100 * b + 4 * c + e := by ring
  have h2 : (100 * b + 4 * c + e) / 100 = b :=
    div_of_bounds _ _ b (4 * c + e) (by omega) (by ring) (by omega) (by omega)
  have e2 : 100 * b + 4 * c + e - 100 * b = 4 * c + e := by ring
  have h3 : (4 * c + e) / 4 = c :=
    div_of_bounds _ _ c e (by omega) (by ring) (by omega) (by omega)
  simp only [daysSinceEpoch, hu, h1, e1, h2, e2, h3]
  omega

theorem isLeap_decomp (year a b c e : Int)
    (hY : year - absoluteZeroYear = 400 * a + 100 * b + 4 * c + e)
    (hb : 0 ≤ b ∧ b < 4) (hc : 0 ≤ c ∧ c < 25) (he : 0 ≤ e ∧ e < 4) :
    isLeap year = true ↔ (e = 3 ∧ (c < 24 ∨ b = 3)) := by
  simp only [absoluteZeroYear] at hY
  simp only [isLeap, Bool.and_eq_true, Bool.or_eq_true, beq_iff_eq, bne_iff_ne, ne_eq]
  omega

theorem uint64_of_range (x : Int) (h0 : 0 ≤ x) (h1 : x < 18446744073709551616) : uint64 x = x := by
  simp only [uint64]; omega

theorem int64_of_range (x : Int) (h0 : -9223372036854775808 ≤ x) (h1 : x < 9223372036854775808) :
    int64 x = x := by
  simp only [int64]; omega

theorem int64_add_int64 (x k : Int) : int64 (int64 x + k) = int64 (x + k) := by
  simp only [int64]; omega

theorem uint64_add_uint64 (x k : Int) : uint64 (x + uint64 k) = uint64 (x + k) := by
  simp only [uint64]; omega

theorem daysBefore_bounds (i : Nat) : 0 ≤ daysBefore i ∧ daysBefore i ≤ 365 := by
  unfold daysBefore; split <;> omega

theorem daysSinceEpoch_bounds (year : Int) (hy : -1000000000 ≤ year) (hy2 : year ≤ 1000000000) :
    106000000000000 ≤ daysSinceEpoch year ∧ daysSinceEpoch year ≤ 108000000000000 := by
  obtain ⟨a, b, c, e, hY, hb, hc, he⟩ := year_split (year - absoluteZeroYear)
  rw [daysSinceEpoch_decomp year a b c e (by simp only [absoluteZeroYear]; omega) hy2 hY hb hc he]
  simp only [absoluteZeroYear] at hY
  omega

theorem Date_eq (y m d h mi s ns : Int) (l : Location)
    (hy : -1000000000 ≤ y ∧ y ≤ 1000000000) (hm : 1 ≤ m ∧ m ≤ 12) (hd : 0 ≤ d ∧ d ≤ 31)
    (hh : 0 ≤ h ∧ h < 24) (hmi : 0 ≤ mi ∧ mi < 60) (hs : 0 ≤ s ∧ s < 60)
    (hns : 0 ≤ ns ∧ ns < 1000000000) (hl : -100000 ≤ l.offset ∧ l.offset ≤ 100000) :
    Date y m d h mi s ns l =
      ⟨(daysSinceEpoch y + yday y m d) * 86400 + (h * 3600 + mi * 60 + s)
        + absoluteToInternal - l.offset, ns, l⟩ := by
  have hD := daysSinceEpoch_bounds y hy.1 hy.2
  have hB := daysBefore_bounds (m - 1).toNat
  have n1 : norm y (m - 1) 12 = (y, m - 1) := norm_id _ _ _ (by omega) (by omega)
  have n2 : norm s ns 1000000000 = (s, ns) := norm_id _ _ _ hns.1 hns.2
  have n3 : norm mi s 60 = (mi, s) := norm_id _ _ _ hs.1 hs.2
  have n4 : norm h mi 60 = (h, mi) := norm_id _ _ _ hmi.1 hmi.2
  have n5 : norm d h 24 = (d, h) := norm_id _ _ _ hh.1 hh.2
  have em : m - 1 + 1 = m := by omega
  unfold Date
  simp only [n1, n2, n3, n4, n5, em]
  have hA : (if (isLeap y && decide (m ≥ 3)) = true then
        daysSinceEpoch y + daysBefore (m - 1).toNat + 1
      else daysSinceEpoch y + daysBefore (m - 1).toNat) + uint64 (d - 1)
      = daysSinceEpoch y + yday y m d + (uint64 (d - 1) - (d - 1)) := by
    simp only [yday]; split <;> ring
  have hydb : -1 ≤ yday y m d ∧ yday y m d ≤ 400 := by
    simp only [yday]; split <;> omega
  rw [hA]
  generalize daysSinceEpoch y = D at *
  generalize yday y m d = K at *
  have e1 : uint64 (D + K + (uint64 (d - 1) - (d - 1))) = D + K := by
    simp only [uint64]; omega
  have e2 : uint64 ((D + K) * secondsPerDay) = (D + K) * 86400 := by
    simp only [uint64, secondsPerDay]; omega
  have e3 : uint64 (h * 3600 + mi * 60 + s) = h * 3600 + mi * 60 + s := by
    simp only [uint64]; omega
  have e4 : uint64 ((D + K) * 86400 + (h * 3600 + mi * 60 + s))
      = (D + K) * 86400 + (h * 3600 + mi * 60 + s) := by
    simp only [uint64]; omega
  rw [e1, e2, e3, e4, int64_add_int64]
  simp only [unixTime, Time.mk.injEq, and_true]
  simp only [int64, absoluteToInternal, internalToUnix, unixToInternal]
  omega

theorem daysSinceEpoch_closed (year : Int) (hy : -1000000000 ≤ year) (hy2 : year ≤ 1000000000) :
    daysSinceEpoch year = 365 * (year - absoluteZeroYear) + (year - absoluteZeroYear) / 4
      - (year - absoluteZeroYear) / 100 + (year - absoluteZeroYear) / 400 := by
  obtain ⟨a, b, c, e, hY, hb, hc, he⟩ := year_split (year - absoluteZeroYear)
  rw [daysSinceEpoch_decomp year a b c e (by simp only [absoluteZeroYear]; omega) hy2 hY hb hc he,
    hY]
  have h4 : (400 * a + 100 * b + 4 * c + e) / 4 = 100 * a + 25 * b + c :=
    div_of_bounds _ _ _ e (by omega) (by ring) he.1 he.2
  have h100 : (400 * a + 100 * b + 4 * c + e) / 100 = 4 * a + b :=
    div_of_bounds _ _ _ (4 * c + e) (by omega) (by ring) (by omega) (by omega)
  have h400 : (400 * a + 100 * b + 4 * c + e) / 400 = a :=
    div_of_bounds _ _ _ (100 * b + 4 * c + e) (by omega) (by ring) (by omega) (by omega)
  rw [h4, h100, h400]; ring

theorem daysSinceEpoch_succ (year : Int) (hy : -1000000000 ≤ year) (hy2 : year < 1000000000) :
    daysSinceEpoch (year + 1) = daysSinceEpoch year + 365 + (if isLeap year = true then 1 else 0) := by
  obtain ⟨a, b, c, e, hY, hb, hc, he⟩ := year_split (year - absoluteZeroYear)
  have hl := isLeap_decomp year a b c e hY hb hc he
  have hz : absoluteZeroYear = -292277022399 := rfl
  rw [daysSinceEpoch_decomp year a b c e (by omega) (by omega) hY hb hc he]
  by_cases h1 : e < 3
  · rw [daysSinceEpoch_decomp (year + 1) a b c (e + 1) (by omega)
      (by omega) (by omega) hb hc (by omega)]
    have : ¬ isLeap year = true := by rw [hl]; omega
    rw [if_neg this]; ring
  · by_cases h2 : c < 24
    · rw [daysSinceEpoch_decomp (year + 1) a b (c + 1) 0 (by omega)
        (by omega) (by omega) hb (by omega) (by omega)]
      have : isLeap year = true := by rw [hl]; omega
      rw [if_pos this]; omega
    · by_cases h3 : b < 3
      · rw [daysSinceEpoch_decomp (year + 1) a (b + 1) 0 0
          (by omega) (by omega) (by omega) (by omega) (by omega) (by omega)]
        have : ¬ isLeap year = true := by rw [hl]; omega
        rw [if_neg this]; omega
      · rw [daysSinceEpoch_decomp (year + 1) (a + 1) 0 0 0
          (by omega) (by omega) (by omega) (by omega) (by omega) (by omega)]
        have : isLeap year = true := by rw [hl]; omega
        rw [if_pos this]; omega

theorem Date_abs (y m d h mi s ns : Int) (l : Location)
    (hy : -1000000000 ≤ y ∧ y ≤ 1000000000) (hm : 1 ≤ m ∧ m ≤ 12) (hd : 0 ≤ d ∧ d ≤ 31)
    (hh : 0 ≤ h ∧ h < 24) (hmi : 0 ≤ mi ∧ mi < 60) (hs : 0 ≤ s ∧ s < 60)
    (hns : 0 ≤ ns ∧ ns < 1000000000) (hl : -100000 ≤ l.offset ∧ l.offset ≤ 100000) :
    (Date y m d h mi s ns l).abs
      = (daysSinceEpoch y + yday y m d) * 86400 + (h * 3600 + mi * 60 + s) := by
  rw [Date_eq y m d h mi s ns l hy hm hd hh hmi hs hns hl]
  have hD := daysSinceEpoch_bounds y hy.1 hy.2
  have hB := daysBefore_bounds (m - 1).toNat
  have hydb : -1 ≤ yday y m d ∧ yday y m d ≤ 400 := by
    simp only [yday]; split <;> omega
  generalize daysSinceEpoch y = D at *
  generalize yday y m d = K at *
  simp only [Time.abs, Time.Unix, int64, uint64, absoluteToInternal, internalToUnix,
    unixToInternal, internalToAbsolute]
  omega

theorem Date_Unix (y m d h mi s ns : Int) (l : Location)
    (hy : -1000000000 ≤ y ∧ y ≤ 1000000000) (hm : 1 ≤ m ∧ m ≤ 12) (hd : 0 ≤ d ∧ d ≤ 31)
    (hh : 0 ≤ h ∧ h < 24) (hmi : 0 ≤ mi ∧ mi < 60) (hs : 0 ≤ s ∧ s < 60)
    (hns : 0 ≤ ns ∧ ns < 1000000000) (hl : -100000 ≤ l.offset ∧ l.offset ≤ 100000) :
    (Date y m d h mi s ns l).Unix
      = (daysSinceEpoch y + yday y m d) * 86400 + (h * 3600 + mi * 60 + s)
        + (absoluteToInternal + internalToUnix) - l.offset := by
  rw [Date_eq y m d h mi s ns l hy hm hd hh hmi hs hns hl]
  have hD := daysSinceEpoch_bounds y hy.1 hy.2
  have hB := daysBefore_bounds (m - 1).toNat
  have hydb : -1 ≤ yday y m d ∧ yday y m d ≤ 400 := by
    simp only [yday]; split <;> omega
  generalize daysSinceEpoch y = D at *
  generalize yday y m d = K at *
  simp only [Time.Unix, int64, absoluteToInternal, internalToUnix]
  omega

theorem daysIn_bounds (m year : Int) (hm : 1 ≤ m ∧ m ≤ 12) : 28 ≤ daysIn m year ∧ daysIn m year ≤ 31 := by
  obtain ⟨h1, h2⟩ := hm
  unfold daysIn
  interval_cases m <;> cases isLeap year <;> simp [daysBefore]

theorem yday_bounds (year m d : Int) (hm : 1 ≤ m ∧ m ≤ 12) (hd : 1 ≤ d ∧ d ≤ daysIn m year) :
    0 ≤ yday year m d ∧ yday year m d ≤ 364 + (if isLeap year = true then 1 else 0) := by
  obtain ⟨h1, h2⟩ := hm
  obtain ⟨h3, h4⟩ := hd
  unfold daysIn at h4
  unfold yday
  interval_cases m <;> cases isLeap year <;> simp [daysBefore] at h4 ⊢ <;> omega

theorem absDate_Date (y m d h mi s ns : Int) (l : Location)
    (hy : -1000000000 ≤ y ∧ y ≤ 1000000000) (hm : 1 ≤ m ∧ m ≤ 12)
    (hd : 1 ≤ d ∧ d ≤ daysIn m y)
    (hh : 0 ≤ h ∧ h < 24) (hmi : 0 ≤ mi ∧ mi < 60) (hs : 0 ≤ s ∧ s < 60)
    (hns : 0 ≤ ns ∧ ns < 1000000000) (hl : -100000 ≤ l.offset ∧ l.offset ≤ 100000) :
    absDate (Date y m d h mi s ns l).abs = (y, m, d) := by
  have hdi := daysIn_bounds m y hm
  rw [Date_abs y m d h mi s ns l hy hm (by omega) hh hmi hs hns hl, absDate_eq]
  have hK := yday_bounds y m d hm hd
  have hdiv : ((daysSinceEpoch y + yday y m d) * 86400 + (h * 3600 + mi * 60 + s)) / 86400
      = daysSinceEpoch y + yday y m d :=
    div_of_bounds _ _ _ (h * 3600 + mi * 60 + s) (by omega) (by ring) (by omega) (by omega)
  rw [hdiv]
  obtain ⟨a, b, c, e, hY, hb, hc, he⟩ := year_split (y - absoluteZeroYear)
  have hz : absoluteZeroYear = -292277022399 := rfl
  have hleap := isLeap_decomp y a b c e hY hb hc he
  rw [daysSinceEpoch_decomp y a b c e (by omega) hy.2 hY hb hc he]
  have hyd : yearDay (146097 * a + 36524 * b + 1461 * c + 365 * e + yday y m d)
      = (400 * a + 100 * b + 4 * c + e, yday y m d) := by
    apply yearDay_decomp a b c e _ hb hc he hK.1
    by_cases hlp : isLeap y = true
    · rw [if_pos hlp] at hK
      have := hleap.mp hlp
      omega
    · rw [if_neg hlp] at hK
      omega
  rw [hyd]
  have hyear : int64 (int64 (400 * a + 100 * b + 4 * c + e) + absoluteZeroYear) = y := by
    rw [int64_add_int64, int64_of_range] <;> omega
  simp only [hyear]
  have hmd := monthDay_spec (isLeap y) m d hm hd.1 (by
    have := hd.2
    unfold daysIn at this
    simpa using this)
  unfold yday
  simp only [Bool.and_eq_true, decide_eq_true_eq] at hmd ⊢
  rw [hmd]

theorem absClock_Date (y m d h mi s ns : Int) (l : Location)
    (hy : -1000000000 ≤ y ∧ y ≤ 1000000000) (hm : 1 ≤ m ∧ m ≤ 12) (hd : 1 ≤ d ∧ d ≤ 31)
    (hh : 0 ≤ h ∧ h < 24) (hmi : 0 ≤ mi ∧ mi < 60) (hs : 0 ≤ s ∧ s < 60)
    (hns : 0 ≤ ns ∧ ns < 1000000000) (hl : -100000 ≤ l.offset ∧ l.offset ≤ 100000) :
    absClock (Date y m d h mi s ns l).abs = (h, mi, s) := by
  rw [Date_abs y m d h mi s ns l hy hm (by omega) hh hmi hs hns hl]
  generalize daysSinceEpoch y + yday y m d = D
  have h1 : (D * 86400 + (h * 3600 + mi * 60 + s)) % 86400 = h * 3600 + mi * 60 + s := by
    omega
  have h2 : (h * 3600 + mi * 60 + s) / 3600 = h :=
    div_of_bounds _ _ _ (mi * 60 + s) (by omega) (by ring) (by omega) (by omega)
  have h3 : (h * 3600 + mi * 60 + s - h * 3600) / 60 = mi :=
    div_of_bounds _ _ _ s (by omega) (by ring) (by omega) (by omega)
  simp only [absClock, h1, h2, h3, Prod.mk.injEq, true_and]
  omega

theorem Date_day_zero (y m h mi s ns : Int) (l : Location)
    (hy : -999999999 ≤ y ∧ y ≤ 1000000000) (hm : 1 ≤ m ∧ m ≤ 12)
    (hh : 0 ≤ h ∧ h < 24) (hmi : 0 ≤ mi ∧ mi < 60) (hs : 0 ≤ s ∧ s < 60)
    (hns : 0 ≤ ns ∧ ns < 1000000000) (hl : -100000 ≤ l.offset ∧ l.offset ≤ 100000) :
    Date y m 0 h mi s ns l
      = Date (prevMonth y m).1 (prevMonth y m).2 (daysIn (prevMonth y m).2 (prevMonth y m).1)
          h mi s ns l := by
  obtain ⟨h1, h2⟩ := hm
  rw [Date_eq y m 0 h mi s ns l (by omega) ⟨h1, h2⟩ (by omega) hh hmi hs hns hl]
  by_cases hm1 : m = 1
  · subst hm1
    have hp : prevMonth y 1 = (y - 1, 12) := by simp [prevMonth]
    rw [hp]
    have hdi : daysIn 12 (y - 1) = 31 := by simp [daysIn, daysBefore]
    simp only [hdi]
    rw [Date_eq (y - 1) 12 31 h mi s ns l (by omega) (by omega) (by omega) hh hmi hs hns hl]
    have hs := daysSinceEpoch_succ (y - 1) (by omega) (by omega)
    rw [sub_add_cancel] at hs
    rw [hs]
    unfold yday
    cases isLeap (y - 1) <;> simp [daysBefore] <;> omega
  · have hp : prevMonth y m = (y, m - 1) := by simp [prevMonth, hm1]
    rw [hp]
    have hdi := daysIn_bounds (m - 1) y (by omega)
    simp only []
    rw [Date_eq y (m - 1) (daysIn (m - 1) y) h mi s ns l (by omega) (by omega) (by omega) hh hmi
      hs hns hl]
    have : yday y m 0 = yday y (m - 1) (daysIn (m - 1) y) := by
      unfold yday daysIn
      interval_cases m <;> cases isLeap y <;> simp [daysBefore] at hm1 ⊢
    rw [this]

theorem parsed_date_fields (y m d : Int) (hy : 0 ≤ y ∧ y ≤ 9999) (hm : 1 ≤ m ∧ m ≤ 12)
    (hd : 1 ≤ d ∧ d ≤ daysIn m y) :
    (Date y m d 0 0 0 0 UTC).Year = y ∧ (Date y m d 0 0 0 0 UTC).Month = m
      ∧ (Date y m d 0 0 0 0 UTC).Day = d := by
  have h := absDate_Date y m d 0 0 0 0 UTC (by omega) hm hd (by omega) (by omega) (by omega)
    (by omega) (by simp [UTC])
  simp [Time.Year, Time.Month, Time.Day, h]

theorem AddDate_eq (t : Time) (years months days : Int) :
    t.AddDate years months days
      = Date ((absDate t.abs).1 + years) ((absDate t.abs).2.1 + months)
          ((absDate t.abs).2.2 + days) (absClock t.abs).1 (absClock t.abs).2.1
          (absClock t.abs).2.2 t.nsec t.loc := rfl

theorem loc_offset : loc.offset = 32400 := rfl

theorem start_eq (y m d : Int) (hy : 0 ≤ y ∧ y ≤ 9999) (hm : 1 ≤ m ∧ m ≤ 12)
    (hd : 1 ≤ d ∧ d ≤ daysIn m y) :
    start (Date y m d 0 0 0 0 UTC) = Date y m 0 0 0 0 0 loc := by
  obtain ⟨e1, e2, _⟩ := parsed_date_fields y m d hy hm hd
  have hl : -100000 ≤ loc.offset ∧ loc.offset ≤ 100000 := by rw [loc_offset]; omega
  have hdi := daysIn_bounds m y hm
  have hD := absDate_Date y m 1 0 0 0 0 loc (by omega) hm (by omega) (by omega) (by omega)
    (by omega) (by omega) hl
  have hC := absClock_Date y m 1 0 0 0 0 loc (by omega) hm (by omega) (by omega) (by omega)
    (by omega) (by omega) hl
  have hE := Date_eq y m 1 0 0 0 0 loc (by omega) hm (by omega) (by omega) (by omega)
    (by omega) (by omega) hl
  have hn : (Date y m 1 0 0 0 0 loc).nsec = 0 := by rw [hE]
  have hL : (Date y m 1 0 0 0 0 loc).loc = loc := by rw [hE]
  unfold start
  rw [e1, e2, AddDate_eq, hD, hC, hn, hL]
  show Date (y + 0) (m + 0) (1 + -1) 0 0 0 0 loc = _
  rw [add_zero, add_zero]
  rfl

/-- C5: for every valid input date `y-m-d`, `start` is 00:00:00 of the last day
of the previous month, which is the first of month `m` minus one day (86400
seconds), and `end` is day `d` of month `m` at 23:59:59 (with 59 nanoseconds),
both in the fixed zone +09:00. -/
theorem window_of_valid_date (y m d : Int) (hy : 0 ≤ y ∧ y ≤ 9999) (hm : 1 ≤ m ∧ m ≤ 12)
    (hd : 1 ≤ d ∧ d ≤ daysIn m y) :
    start (Date y m d 0 0 0 0 UTC)
        = Date (prevMonth y m).1 (prevMonth y m).2
            (daysIn (prevMonth y m).2 (prevMonth y m).1) 0 0 0 0 (FixedZone 32400)
      ∧ (start (Date y m d 0 0 0 0 UTC)).Unix
          = (Date y m 1 0 0 0 0 (FixedZone 32400)).Unix - 86400
      ∧ absDate (start (Date y m d 0 0 0 0 UTC)).abs
          = ((prevMonth y m).1, (prevMonth y m).2, daysIn (prevMonth y m).2 (prevMonth y m).1)
      ∧ absClock (start (Date y m d 0 0 0 0 UTC)).abs = (0, 0, 0)
      ∧ (start (Date y m d 0 0 0 0 UTC)).loc = FixedZone 32400
      ∧ absDate (end_ (Date y m d 0 0 0 0 UTC)).abs = (y, m, d)
      ∧ absClock (end_ (Date y m d 0 0 0 0 UTC)).abs = (23, 59, 59)
      ∧ (end_ (Date y m d 0 0 0 0 UTC)).Unix
          = (Date y m d 23 59 59 0 (FixedZone 32400)).Unix
      ∧ (end_ (Date y m d 0 0 0 0 UTC)).nsec = 59
      ∧ (end_ (Date y m d 0 0 0 0 UTC)).loc = FixedZone 32400 := by
  have hloc : loc = FixedZone 32400 := rfl
  have hl : -100000 ≤ (FixedZone 32400).offset ∧ (FixedZone 32400).offset ≤ 100000 := by
    decide
  have hdi := daysIn_bounds m y hm
  obtain ⟨e1, e2, e3⟩ := parsed_date_fields y m d hy hm hd
  have hs : start (Date y m d 0 0 0 0 UTC)
      = Date (prevMonth y m).1 (prevMonth y m).2
          (daysIn (prevMonth y m).2 (prevMonth y m).1) 0 0 0 0 (FixedZone 32400) := by
    rw [start_eq y m d hy hm hd, hloc]
    exact Date_day_zero y m 0 0 0 0 (FixedZone 32400) (by omega) hm (by omega) (by omega)
      (by omega) (by omega) hl
  have hp1 : -1 ≤ (prevMonth y m).1 ∧ (prevMonth y m).1 ≤ 9999 := by
    unfold prevMonth; split <;> simp <;> omega
  have hp2 : 1 ≤ (prevMonth y m).2 ∧ (prevMonth y m).2 ≤ 12 := by
    unfold prevMonth; split <;> simp <;> omega
  have hpd := daysIn_bounds (prevMonth y m).2 (prevMonth y m).1 hp2
  have he : end_ (Date y m d 0 0 0 0 UTC) = Date y m d 23 59 59 59 (FixedZone 32400) := by
    unfold end_; rw [e1, e2, e3, hloc]
  have hE := Date_eq y m d 23 59 59 59 (FixedZone 32400) (by omega) hm (by omega) (by omega)
    (by omega) (by omega) (by omega) hl
  refine ⟨hs, ?_, ?_, ?_, ?_, ?_, ?_, ?_, ?_, ?_⟩
  · rw [start_eq y m d hy hm hd, hloc,
      Date_Unix y m 0 0 0 0 0 _ (by omega) hm (by omega) (by omega) (by omega) (by omega)
        (by omega) hl,
      Date_Unix y m 1 0 0 0 0 _ (by omega) hm (by omega) (by omega) (by omega) (by omega)
        (by omega) hl]
    unfold yday; ring
  · rw [hs]
    exact absDate_Date _ _ _ 0 0 0 0 _ (by omega) hp2 (by omega) (by omega) (by omega)
      (by omega) (by omega) hl
  · rw [hs]
    exact absClock_Date _ _ _ 0 0 0 0 _ (by omega) hp2 (by omega) (by omega) (by omega)
      (by omega) (by omega) hl
  · rw [hs, Date_eq _ _ _ 0 0 0 0 _ (by omega) hp2 (by omega) (by omega) (by omega) (by omega)
      (by omega) hl]
  · rw [he]
    exact absDate_Date y m d 23 59 59 59 _ (by omega) hm hd (by omega) (by omega) (by omega)
      (by omega) hl
  · rw [he]
    exact absClock_Date y m d 23 59 59 59 _ (by omega) hm (by omega) (by omega) (by omega)
      (by omega) (by omega) hl
  · rw [he,
      Date_Unix y m d 23 59 59 59 _ (by omega) hm (by omega) (by omega) (by omega) (by omega)
        (by omega) hl,
      Date_Unix y m d 23 59 59 0 _ (by omega) hm (by omega) (by omega) (by omega) (by omega)
        (by omega) hl]
  · rw [he, hE]
  · rw [he, hE]

set_option maxRecDepth 100000 in
/-- C5 at the input date 2024-03-15: the window runs from 2024-02-29T00:00:00
to 2024-03-15T23:59:59, zone +09:00. -/
theorem window_of_2024_03_15 :
    (0 ≤ (2024 : Int) ∧ (2024 : Int) ≤ 9999) ∧ (1 ≤ (3 : Int) ∧ (3 : Int) ≤ 12)
      ∧ (1 ≤ (15 : Int) ∧ (15 : Int) ≤ daysIn 3 2024)
      ∧ start (Date 2024 3 15 0 0 0 0 UTC) = Date 2024 2 29 0 0 0 0 (FixedZone 32400)
      ∧ (start (Date 2024 3 15 0 0 0 0 UTC)).FormatDate = str "2024-02-29"
      ∧ (start (Date 2024 3 15 0 0 0 0 UTC)).FormatClock = str "00:00:00"
      ∧ (end_ (Date 2024 3 15 0 0 0 0 UTC)).FormatDate = str "2024-03-15"
      ∧ (end_ (Date 2024 3 15 0 0 0 0 UTC)).FormatClock = str "23:59:59" :=
  ⟨by decide, by decide, by decide,
    (window_of_valid_date 2024 3 15 (by decide) (by decide) (by decide)).1,
    by decide, by decide, by decide, by decide⟩

/-! ## The fetchers -/

theorem fetchLoop_pages (server : Nat → Reply SlackConversationsHistoryResponse)
    (channelId : GoString) (start end_ : Time)
    (last : SlackConversationsHistoryResponse) (hlast : last.Ok = true)
    (hcur : last.Metadata.Cursor = []) :
    ∀ (ps : List SlackConversationsHistoryResponse) (fuel n : Nat) (cursor : GoString)
      (allMsg : List SlackMessage) (log : List Event),
      (∀ p ∈ ps, p.Ok = true ∧ p.Metadata.Cursor ≠ []) →
      (∀ i, server (n + i) = serve (ps ++ [last]) i) →
      ps.length < fuel →
      fetchLoop server channelId start end_ fuel n cursor allMsg log
        = some (log ++ requests channelId start end_
              (cursor :: ps.map (fun p => p.Metadata.Cursor)),
            allMsg ++ ps.flatMap (fun p => p.Messages)) := by
  intro ps
  induction ps with
  | nil =>
    intro fuel n cursor allMsg log _ hs hf
    obtain ⟨fuel, rfl⟩ : ∃ k, fuel = k + 1 := ⟨fuel - 1, by simp at hf; omega⟩
    have h0 : server n = .json last := by simpa [serve] using hs 0
    simp [fetchLoop, exeSlackApi, h0, hlast, hcur, requests]
  | cons p ps ih =>
    intro fuel n cursor allMsg log hp hs hf
    obtain ⟨fuel, rfl⟩ : ∃ k, fuel = k + 1 := ⟨fuel - 1, by simp at hf; omega⟩
    have h0 : server n = .json p := by simpa [serve] using hs 0
    obtain ⟨hok, hc⟩ := hp p (List.mem_cons_self _ _)
    have hlen : ¬ p.Metadata.Cursor.length < 1 := by
      cases hcc : p.Metadata.Cursor with
      | nil => exact absurd hcc hc
      | cons _ _ => simp
    have ih2 := ih fuel (n + 1) p.Metadata.Cursor (allMsg ++ p.Messages)
      (log ++ [Event.historyRequest channelId start.Unix end_.Unix cursor])
      (fun q hq => hp q (List.mem_cons_of_mem _ hq))
      (fun i => by
        have := hs (i + 1)
        simpa [serve, Nat.add_assoc, Nat.add_comm 1 i] using this)
      (by simp at hf; omega)
    simp only [fetchLoop, exeSlackApi, h0, hok, Bool.not_true, Bool.false_eq_true, if_false,
      hlen]
    rw [ih2]
    simp [requests]

/-- For every history of pages `ps` followed by a page `last`, where the pages
of `ps` carry a non-empty cursor and `last` an empty one, `fetchSlackMessages`
ends after one request per page and returns the messages of `ps` in request
order, those of `last` left out, and a nil error. -/
theorem fetchSlackMessages_all_but_last (ps : List SlackConversationsHistoryResponse)
    (last : SlackConversationsHistoryResponse) (fuel : Nat) (channelId : GoString)
    (target start end_ : Time)
    (hps : ∀ p ∈ ps, p.Ok = true ∧ p.Metadata.Cursor ≠ [])
    (hlast : last.Ok = true ∧ last.Metadata.Cursor = []) (hfuel : ps.length < fuel) :
    fetchSlackMessages (serve (ps ++ [last])) fuel channelId target start end_
      = some (requests channelId start end_ ([] :: ps.map (fun p => p.Metadata.Cursor)),
          ps.flatMap (fun p => p.Messages), none) := by
  have h := fetchLoop_pages (serve (ps ++ [last])) channelId start end_ last hlast.1 hlast.2
    ps fuel 0 [] [] [] hps (fun i => by simp) hfuel
  simp only [fetchSlackMessages, h, List.nil_append]

/-- Two pages: the message of the first is returned, that of the last is not. -/
theorem fetchSlackMessages_two_pages :
    (∀ p ∈ [mkPage [mkMessage "U1" "1709262000.000100" "first"] "c1"],
        p.Ok = true ∧ p.Metadata.Cursor ≠ [])
      ∧ fetchSlackMessages
          (serve ([mkPage [mkMessage "U1" "1709262000.000100" "first"] "c1"]
            ++ [mkPage [mkMessage "U1" "1709262002.000100" "second"] ""]))
          2 (str "C1") (Unix 0 UTC) (Unix 0 UTC) (Unix 0 UTC)
        = some (requests (str "C1") (Unix 0 UTC) (Unix 0 UTC) [[], str "c1"],
            [mkMessage "U1" "1709262000.000100" "first"], none) :=
  ⟨by decide,
    fetchSlackMessages_all_but_last _ _ 2 _ _ _ _ (by decide) (by decide) (by decide)⟩

/-- C1, at the failing input: one page with one message and an empty cursor is
requested once and the message is not returned. -/
theorem fetchSlackMessages_drops_last_page :
    fetchSlackMessages (serve [mkPage [mkMessage "U1" "1709262000.000100" "only"] ""]) 5
        (str "C1") (Unix 0 UTC) (Unix 0 UTC) (Unix 0 UTC)
      = some ([Event.historyRequest (str "C1") 0 0 []], [], none) := by
  decide

theorem fetchSlackMessages_error_nil (server : Nat → Reply SlackConversationsHistoryResponse)
    (fuel : Nat) (channelId : GoString) (target start end_ : Time) :
    ∀ r, fetchSlackMessages server fuel channelId target start end_ = some r → r.2.2 = none := by
  intro r h
  unfold fetchSlackMessages at h
  split at h
  · simp at h
  · simp at h; rw [← h]

/-- C2, at the failing input: the first page answers `ok:false` with error
`invalid_auth`; `exeSlackApi` reports it, `fetchSlackMessages` returns no error. -/
theorem fetchSlackMessages_swallows_invalid_auth :
    (exeSlackApi (.json ⟨false, [], str "invalid_auth", [], ⟨[]⟩⟩)).2.2
        = some (str "slack API error: invalid_auth, needed: ")
      ∧ fetchSlackMessages (fun _ => .json ⟨false, [], str "invalid_auth", [], ⟨[]⟩⟩) 5
          (str "C1") (Unix 0 UTC) (Unix 0 UTC) (Unix 0 UTC)
        = some ([Event.historyRequest (str "C1") 0 0 []], [], none) := by
  decide

/-- C8, at the failing input: a `users.list` body with `ok:false` and error
`invalid_auth` yields the (empty) member list and a nil error. -/
theorem getMembers_ignores_ok_false :
    getMembers (.json ⟨false, [], str "invalid_auth", []⟩) = ([], none) := by
  decide

/-- For every `users.list` body that parses, `getMembers` returns the decoded
member list and a nil error, whatever the `ok` flag says. -/
theorem getMembers_json_error_nil (r : SlackConversationsUsersResponse) :
    getMembers (.json r) = (r.Members, none) := rfl

/-- The result of `fetchSlackMessages` is that of its loop with a nil error:
whatever the replies, no error is returned. -/
theorem fetchSlackMessages_error_always_nil
    (server : Nat → Reply SlackConversationsHistoryResponse) (fuel : Nat)
    (channelId : GoString) (target start end_ : Time) :
    fetchSlackMessages server fuel channelId target start end_
      = (fetchLoop server channelId start end_ fuel 0 [] [] []).map
          (fun r => (r.1, r.2, none)) := by
  unfold fetchSlackMessages
  cases fetchLoop server channelId start end_ fuel 0 [] [] [] <;> rfl

/-! ## `strconv.ParseInt` on the whole seconds of a timestamp -/

theorem decimalFrom_ge (ds : List Nat) : ∀ n, n ≤ decimalFrom n ds := by
  induction ds with
  | nil => intro n; simp [decimalFrom]
  | cons c cs ih =>
    intro n
    have := ih (10 * n + (c - 48))
    simp only [decimalFrom, List.foldl_cons] at this ⊢
    omega

theorem parseUintLoop_digits (ds : List Nat) (hds : ∀ c ∈ ds, 48 ≤ c ∧ c ≤ 57) :
    ∀ n : Nat, n ≤ 18446744073709551615 →
      parseUintLoop ds n =
        if decimalFrom n ds ≤ 18446744073709551615 then
          (((decimalFrom n ds : Nat) : Int), (none : Option NumError))
        else ((18446744073709551615 : Int), some NumError.ErrRange) := by
  induction ds with
  | nil => intro n hn; simp [parseUintLoop, decimalFrom, hn]
  | cons c cs ih =>
    intro n hn
    have hc := hds c (List.mem_cons_self _ _)
    have ih2 := ih (fun x hx => hds x (List.mem_cons_of_mem _ hx))
    have hge := decimalFrom_ge cs (10 * n + (c - 48))
    have hstep : decimalFrom n (c :: cs) = decimalFrom (10 * n + (c - 48)) cs := rfl
    rw [hstep]
    have hcast : ((c : Int) - 48) = ((c - 48 : Nat) : Int) := by omega
    have hk : (18446744073709551615 : Int) / 10 + 1 = 1844674407370955162 := by decide
    simp only [parseUintLoop, hc, and_self, if_true, hk]
    by_cases h1 : (n : Int) ≥ 1844674407370955162
    · have : ¬ decimalFrom (10 * n + (c - 48)) cs ≤ 18446744073709551615 := by omega
      rw [if_pos h1, if_neg this]
    · rw [if_neg h1]
      have e1 : uint64 ((n : Int) * 10) = (n : Int) * 10 := by
        apply uint64_of_range <;> omega
      rw [e1]
      by_cases h2 : 10 * n + (c - 48) ≤ 18446744073709551615
      · have e2 : uint64 ((n : Int) * 10 + ((c : Int) - 48))
            = ((10 * n + (c - 48) : Nat) : Int) := by
          rw [uint64_of_range] <;> omega
        have h3 : ¬ (((10 * n + (c - 48) : Nat) : Int) < (n : Int) * 10 ∨
            ((10 * n + (c - 48) : Nat) : Int) > 18446744073709551615) := by omega
        rw [e2, if_neg h3]
        exact ih2 _ h2
      · have e2 : uint64 ((n : Int) * 10 + ((c : Int) - 48))
            = (n : Int) * 10 + ((c : Int) - 48) - 18446744073709551616 := by
          simp only [uint64]; omega
        have h3 : ((n : Int) * 10 + ((c : Int) - 48) - 18446744073709551616 < (n : Int) * 10 ∨
            (n : Int) * 10 + ((c : Int) - 48) - 18446744073709551616
              > 18446744073709551615) := by
          omega
        have : ¬ decimalFrom (10 * n + (c - 48)) cs ≤ 18446744073709551615 := by omega
        rw [e2, if_pos h3, if_neg this]

theorem ParseInt_digits (ds : List Nat) (hne : ds ≠ []) (hds : ∀ c ∈ ds, 48 ≤ c ∧ c ≤ 57) :
    ParseInt ds =
      if decimal ds < 9223372036854775808 then
        (((decimal ds : Nat) : Int), (none : Option NumError))
      else ((9223372036854775807 : Int), some NumError.ErrRange) := by
  cases ds with
  | nil => exact absurd rfl hne
  | cons c cs =>
    have hc := hds c (List.mem_cons_self _ _)
    have h43 : c ≠ 43 := by omega
    have h45 : c ≠ 45 := by omega
    have hp := parseUintLoop_digits (c :: cs) hds 0 (by omega)
    simp only [Nat.cast_zero] at hp
    simp only [ParseInt, h43, h45, if_false, ParseUint, List.cons_ne_nil, hp, decimal]
    by_cases h1 : decimalFrom 0 (c :: cs) ≤ 18446744073709551615
    · simp only [h1, if_true]
      by_cases h2 : decimalFrom 0 (c :: cs) < 9223372036854775808
      · have e : int64 ((decimalFrom 0 (c :: cs) : Nat) : Int) = (decimalFrom 0 (c :: cs) : Nat) := by
          apply int64_of_range <;> omega
        have h3 : ¬ ((decimalFrom 0 (c :: cs) : Nat) : Int) ≥ 9223372036854775808 := by omega
        simp [h2, h3, e]
      · have h3 : ((decimalFrom 0 (c :: cs) : Nat) : Int) ≥ 9223372036854775808 := by omega
        simp [h2, h3]
    · have h2 : ¬ decimalFrom 0 (c :: cs) < 9223372036854775808 := by omega
      simp [h1, h2]

theorem sliceTs_none_iff (msg : GoString) : sliceTs msg = none ↔ msg.length < 7 := by
  unfold sliceTs; split <;> simp_all

/-- C10, as amended: for a timestamp `ds.six` with `ds` one or more decimal
digits and `six` six bytes, the slice is in range and yields `ds`; `ParseInt`
yields the integer `ds` denotes when that is below 2^63 and 2^63 - 1 with a
range error otherwise; the slice is out of range exactly for strings shorter
than 7 bytes. -/
theorem ts_extraction (ds six : List Nat) (hne : ds ≠ []) (hds : ∀ c ∈ ds, 48 ≤ c ∧ c ≤ 57)
    (hsix : six.length = 6) :
    sliceTs (ds ++ 46 :: six) = some ds
      ∧ (decimal ds < 9223372036854775808 →
          ParseInt ds = (((decimal ds : Nat) : Int), (none : Option NumError)))
      ∧ (9223372036854775808 ≤ decimal ds →
          ParseInt ds = ((9223372036854775807 : Int), some NumError.ErrRange))
      ∧ (∀ msg : GoString, sliceTs msg = none ↔ msg.length < 7) := by
  refine ⟨?_, ?_, ?_, sliceTs_none_iff⟩
  · have hlen : ¬ (ds ++ 46 :: six).length < 7 := by simp [hsix]
    have htake : (ds ++ 46 :: six).length - 7 = ds.length := by simp [hsix]
    simp only [sliceTs, hlen, if_false, htake, List.take_left']
  · intro h
    rw [ParseInt_digits ds hne hds, if_pos h]
  · intro h
    rw [ParseInt_digits ds hne hds, if_neg (by omega)]

/-- C10 at the timestamp `1709132400.000100`: the extraction yields 1709132400. -/
theorem ts_extraction_1709132400 :
    str "1709132400" ≠ [] ∧ (∀ c ∈ str "1709132400", 48 ≤ c ∧ c ≤ 57)
      ∧ (str "000100").length = 6
      ∧ sliceTs (str "1709132400" ++ 46 :: str "000100") = some (str "1709132400")
      ∧ ParseInt (str "1709132400") = (1709132400, none) :=
  ⟨by decide, by decide, by decide,
    (ts_extraction (str "1709132400") (str "000100") (by decide) (by decide) (by decide)).1,
    (ts_extraction (str "1709132400") (str "000100") (by decide) (by decide)
      (by decide)).2.1 (by decide)⟩

/-- C10 fails as stated at the timestamp `9223372036854775808.000000`: the
digits before the dot denote 2^63, the extraction yields 2^63 - 1. -/
theorem ts_extraction_overflow :
    sliceTs (str "9223372036854775808.000000") = some (str "9223372036854775808")
      ∧ decimal (str "9223372036854775808") = 9223372036854775808
      ∧ ParseInt (str "9223372036854775808")
          = (9223372036854775807, some NumError.ErrRange) := by
  decide

/-! ## Sorting and grouping -/

theorem Compare_swap : ∀ a b : GoString, Compare b a = - Compare a b
  | [], [] => by simp [Compare]
  | [], _ :: _ => by simp [Compare]
  | _ :: _, [] => by simp [Compare]
  | a :: as, b :: bs => by
    have ih := Compare_swap as bs
    simp only [Compare]
    by_cases h1 : a < b
    · have : ¬ b < a := by omega
      simp [h1, this]
    · by_cases h2 : b < a
      · simp [h1, h2]
      · simp [h1, h2, ih]

theorem Compare_total (a b : GoString) : Compare a b ≤ 0 ∨ Compare b a ≤ 0 := by
  rw [Compare_swap a b]; omega

theorem Compare_trans : ∀ a b c : GoString,
    Compare a b ≤ 0 → Compare b c ≤ 0 → Compare a c ≤ 0
  | [], _, [] => by simp [Compare]
  | [], _, _ :: _ => by simp [Compare]
  | _ :: _, [], _ => by simp [Compare]
  | _ :: _, _ :: _, [] => by simp [Compare]
  | a :: as, b :: bs, c :: cs => by
    have ih := Compare_trans as bs cs
    simp only [Compare]
    intro h1 h2
    by_cases hab : a < b
    · by_cases hbc : b < c
      · have : a < c := by omega
        simp [this]
      · by_cases hcb : c < b
        · simp [hbc, hcb] at h2
        · have : a < c := by omega
          simp [this]
    · by_cases hba : b < a
      · simp [hab, hba] at h1
      · simp only [hab, hba, if_false] at h1
        have hab' : a = b := by omega
        subst hab'
        by_cases hbc : a < c
        · simp [hbc]
        · by_cases hcb : c < a
          · simp [hbc, hcb] at h2
          · simp only [hbc, hcb, if_false] at h2 ⊢
            exact ih h1 h2

theorem Sort_perm (messages : List SlackMessage) : (Sort_ compareTs messages).Perm messages :=
  List.perm_insertionSort _ messages

theorem Sort_sorted (messages : List SlackMessage) :
    (Sort_ compareTs messages).Pairwise (fun a b => Compare a.Ts b.Ts ≤ 0) := by
  haveI : IsTotal SlackMessage (fun a b => compareTs a b ≤ 0) :=
    ⟨fun a b => Compare_total a.Ts b.Ts⟩
  haveI : IsTrans SlackMessage (fun a b => compareTs a b ≤ 0) :=
    ⟨fun a b c => Compare_trans a.Ts b.Ts c.Ts⟩
  exact List.sorted_insertionSort (fun a b => compareTs a b ≤ 0) messages

theorem lookupGroup_groupInsert (k k' : GoString) (v : SlackMessage) :
    ∀ out : List (GoString × List SlackMessage),
      lookupGroup k (groupInsert k' v out)
        = if k' = k then lookupGroup k out ++ [v] else lookupGroup k out := by
  intro out
  induction out with
  | nil => by_cases h : k' = k <;> simp [groupInsert, lookupGroup, h]
  | cons e rest ih =>
    obtain ⟨k0, vs⟩ := e
    by_cases h0 : k0 = k'
    · subst h0
      by_cases h : k0 = k <;> simp [groupInsert, lookupGroup, h]
    · by_cases h : k0 = k
      · subst h
        have : ¬ k' = k0 := fun e => h0 e.symm
        simp [groupInsert, lookupGroup, h0, this]
      · simp [groupInsert, lookupGroup, h0, h, ih]

theorem lookupGroup_GroupBy (key : SlackMessage → GoString) (k : GoString)
    (items : List SlackMessage) :
    lookupGroup k (GroupBy key items) = items.filter (fun v => key v = k) := by
  have h : ∀ (items : List SlackMessage) (out : List (GoString × List SlackMessage)),
      lookupGroup k (items.foldl (fun out v => groupInsert (key v) v out) out)
        = lookupGroup k out ++ items.filter (fun v => key v = k) := by
    intro items
    induction items with
    | nil => intro out; simp
    | cons v rest ih =>
      intro out
      rw [List.foldl_cons, ih, lookupGroup_groupInsert]
      by_cases hk : key v = k <;> simp [hk, List.filter_cons]
  simpa [GroupBy, lookupGroup] using h items []

/-! ## Timestamps of equal length: string order is numeric order -/

theorem decimalFrom_eq (cs : List Nat) :
    ∀ n, decimalFrom n cs = n * 10 ^ cs.length + decimal cs := by
  induction cs with
  | nil => intro n; simp [decimalFrom, decimal]
  | cons c cs ih =>
    intro n
    have h1 : decimalFrom n (c :: cs) = decimalFrom (10 * n + (c - 48)) cs := rfl
    have h2 : decimal (c :: cs) = decimalFrom (10 * 0 + (c - 48)) cs := rfl
    rw [h1, h2, ih, ih (10 * 0 + (c - 48))]
    simp only [List.length_cons, pow_succ]
    ring

theorem decimal_cons (c : Nat) (cs : List Nat) :
    decimal (c :: cs) = (c - 48) * 10 ^ cs.length + decimal cs := by
  have h2 : decimal (c :: cs) = decimalFrom (10 * 0 + (c - 48)) cs := rfl
  rw [h2, decimalFrom_eq]
  simp

theorem decimal_lt (cs : List Nat) (h : ∀ c ∈ cs, 48 ≤ c ∧ c ≤ 57) :
    decimal cs < 10 ^ cs.length := by
  induction cs with
  | nil => simp [decimal, decimalFrom]
  | cons c cs ih =>
    have hc := h c (List.mem_cons_self _ _)
    have ih2 := ih (fun x hx => h x (List.mem_cons_of_mem _ hx))
    rw [decimal_cons, List.length_cons, pow_succ]
    have : (c - 48) * 10 ^ cs.length ≤ 9 * 10 ^ cs.length :=
      Nat.mul_le_mul_right _ (by omega)
    omega

theorem Compare_digits : ∀ x y : List Nat, x.length = y.length →
    (∀ c ∈ x, 48 ≤ c ∧ c ≤ 57) → (∀ c ∈ y, 48 ≤ c ∧ c ≤ 57) →
    (Compare x y < 0 → decimal x < decimal y) ∧ (Compare x y = 0 → decimal x = decimal y)
  | [], [], _, _, _ => by simp [Compare]
  | [], _ :: _, h, _, _ => by simp at h
  | _ :: _, [], h, _, _ => by simp at h
  | a :: as, b :: bs, h, hx, hy => by
    have hlen : as.length = bs.length := by simpa using h
    have ha := hx a (List.mem_cons_self _ _)
    have hb := hy b (List.mem_cons_self _ _)
    have hxs : ∀ c ∈ as, 48 ≤ c ∧ c ≤ 57 := fun c hc => hx c (List.mem_cons_of_mem _ hc)
    have hys : ∀ c ∈ bs, 48 ≤ c ∧ c ≤ 57 := fun c hc => hy c (List.mem_cons_of_mem _ hc)
    have ih := Compare_digits as bs hlen hxs hys
    have hlt := decimal_lt as hxs
    rw [decimal_cons, decimal_cons, hlen] at *
    simp only [Compare]
    by_cases hab : a < b
    · simp only [hab, if_true]
      refine ⟨fun _ => ?_, fun h0 => by omega⟩
      have : (a - 48 + 1) * 10 ^ bs.length ≤ (b - 48) * 10 ^ bs.length :=
        Nat.mul_le_mul_right _ (by omega)
      have e : (a - 48 + 1) * 10 ^ bs.length = (a - 48) * 10 ^ bs.length + 10 ^ bs.length := by
        ring
      omega
    · by_cases hba : b < a
      · simp only [hab, hba, if_false, if_true]
        exact ⟨fun h0 => by omega, fun h0 => by omega⟩
      · have hab' : a = b := by omega
        subst hab'
        simp only [hab, if_false]
        exact ⟨fun h0 => by have := ih.1 h0; omega, fun h0 => by have := ih.2 h0; omega⟩

theorem Compare_append : ∀ (x y s t : List Nat), x.length = y.length →
    Compare (x ++ s) (y ++ t) = if Compare x y = 0 then Compare s t else Compare x y
  | [], [], s, t, _ => by simp [Compare]
  | [], _ :: _, _, _, h => by simp at h
  | _ :: _, [], _, _, h => by simp at h
  | a :: as, b :: bs, s, t, h => by
    have hlen : as.length = bs.length := by simpa using h
    have ih := Compare_append as bs s t hlen
    simp only [List.cons_append, Compare]
    by_cases hab : a < b
    · simp [hab]
    · by_cases hba : b < a
      · simp [hab, hba]
      · simp only [hab, hba, if_false]
        exact ih

theorem Compare_ts_numeric (ds six ds' six' : List Nat)
    (hd : ∀ c ∈ ds, 48 ≤ c ∧ c ≤ 57) (hs : ∀ c ∈ six, 48 ≤ c ∧ c ≤ 57)
    (hd' : ∀ c ∈ ds', 48 ≤ c ∧ c ≤ 57) (hs' : ∀ c ∈ six', 48 ≤ c ∧ c ≤ 57)
    (hlen : ds.length = ds'.length) (h6 : six.length = 6) (h6' : six'.length = 6)
    (hc : Compare (ds ++ 46 :: six) (ds' ++ 46 :: six') ≤ 0) :
    decimal ds * 1000000 + decimal six ≤ decimal ds' * 1000000 + decimal six' := by
  have hA := Compare_digits ds ds' hlen hd hd'
  have hB := Compare_digits six six' (by omega) hs hs'
  have hl6 := decimal_lt six hs
  have hl6' := decimal_lt six' hs'
  rw [h6] at hl6
  rw [h6'] at hl6'
  have hsw := Compare_swap ds ds'
  have hsw6 := Compare_swap six six'
  have hA' := Compare_digits ds' ds hlen.symm hd' hd
  have hB' := Compare_digits six' six (by omega) hs' hs
  rw [Compare_append ds ds' _ _ hlen] at hc
  by_cases h0 : Compare ds ds' = 0
  · rw [if_pos h0] at hc
    simp only [Compare, lt_self_iff_false, if_false] at hc
    have e := hA.2 h0
    by_cases h1 : Compare six six' = 0
    · have := hB.2 h1; omega
    · have := hB.1 (by omega); omega
  · rw [if_neg h0] at hc
    have := hA.1 (by omega)
    omega

/-- C6, as amended: the group built for sender `S` holds exactly the fetched
messages whose sender is `S`, each once and none of another sender, in
ascending order of their timestamp strings compared bytewise
(`strings.Compare`); for any two of its messages whose timestamps are decimal
digits, a dot and six digits with the same number of digits before the dot,
that is the ascending order of the timestamps read as numbers (here in
microseconds). -/
theorem group_is_filter_sorted (messages : List SlackMessage) (S : GoString) :
    (lookupGroup S (groupMessages messages)).Perm (messages.filter (fun m => m.User = S))
      ∧ (lookupGroup S (groupMessages messages)).Pairwise
          (fun a b => Compare a.Ts b.Ts ≤ 0)
      ∧ (lookupGroup S (groupMessages messages)).Pairwise
          (fun a b => ∀ ds six ds' six' : List Nat,
            a.Ts = ds ++ 46 :: six → b.Ts = ds' ++ 46 :: six' →
            (∀ c ∈ ds, 48 ≤ c ∧ c ≤ 57) → (∀ c ∈ six, 48 ≤ c ∧ c ≤ 57) →
            (∀ c ∈ ds', 48 ≤ c ∧ c ≤ 57) → (∀ c ∈ six', 48 ≤ c ∧ c ≤ 57) →
            ds.length = ds'.length → six.length = 6 → six'.length = 6 →
            decimal ds * 1000000 + decimal six ≤ decimal ds' * 1000000 + decimal six') := by
  unfold groupMessages
  rw [lookupGroup_GroupBy]
  have hs : ((Sort_ compareTs messages).filter (fun v => v.User = S)).Pairwise
      (fun a b => Compare a.Ts b.Ts ≤ 0) := (Sort_sorted messages).filter _
  refine ⟨(Sort_perm messages).filter _, hs, hs.imp ?_⟩
  intro a b hc ds six ds' six' ha hb hd h6 hd' h6' hlen hl hl'
  rw [ha, hb] at hc
  exact Compare_ts_numeric ds six ds' six' hd h6 hd' h6' hlen hl hl' hc

/-- C6 fails as stated: of two messages of one sender with timestamps
`999999999.000000` and `1000000000.000000`, the group holds the later one
first, because `"1000000000..."` sorts before `"999999999..."` as a string. -/
theorem group_not_numeric_order :
    lookupGroup (str "U1")
        (groupMessages [mkMessage "U1" "999999999.000000" "early",
          mkMessage "U1" "1000000000.000000" "late"])
      = [mkMessage "U1" "1000000000.000000" "late", mkMessage "U1" "999999999.000000" "early"]
      ∧ (sliceTs (str "999999999.000000")).map (fun ts => (ParseInt ts).1) = some 999999999
      ∧ (sliceTs (str "1000000000.000000")).map (fun ts => (ParseInt ts).1)
          = some 1000000000 := by
  decide

/-! ## The report -/

theorem inner_fold (realName : GoString) (userNameRes : List UserName) :
    ∀ sheetName : GoString,
      userNameRes.foldl
          (fun sheetName u => if HasPrefix realName u.Name then realName else sheetName)
          sheetName
        = if userNameRes.any (fun u => HasPrefix realName u.Name) then realName
          else sheetName := by
  induction userNameRes with
  | nil => intro s; simp
  | cons u us ih =>
    intro s
    rw [List.foldl_cons, ih]
    by_cases h : HasPrefix realName u.Name = true
    · simp [h]
    · simp [h]

theorem sheetNameFor_eq (members : List Members) (userNameRes : List UserName)
    (key : GoString) :
    sheetNameFor members userNameRes key
      = ((lastMatch members userNameRes key).map (fun v => v.RealName)).getD [] := by
  have h : ∀ (members : List Members) (s : GoString),
      members.foldl
        (fun sheetName v =>
          if v.Id = key then
            userNameRes.foldl
              (fun sheetName u => if HasPrefix v.RealName u.Name then v.RealName else sheetName)
              sheetName
          else sheetName) s
      = (((members.filter (authorized userNameRes key)).getLast?).map
          (fun v => v.RealName)).getD s := by
    intro members
    induction members with
    | nil => intro s; simp
    | cons v rest ih =>
      intro s
      rw [List.foldl_cons, ih, inner_fold]
      by_cases hid : v.Id = key
      · by_cases hany : userNameRes.any (fun u => HasPrefix v.RealName u.Name) = true
        · have ha : authorized userNameRes key v = true := by simp [authorized, hid, hany]
          rw [List.filter_cons_of_pos ha, List.getLast?_cons]
          cases hl : (rest.filter (authorized userNameRes key)).getLast? <;>
            simp [hid, hany]
        · have ha : ¬ authorized userNameRes key v = true := by simp [authorized, hid, hany]
          rw [List.filter_cons_of_neg ha]
          simp [hid, hany]
      · have ha : ¬ authorized userNameRes key v = true := by simp [authorized, hid]
        rw [List.filter_cons_of_neg ha]
        simp [hid]
  exact h members []

theorem groupLoop_append (w : World) (local_ : Location) (members : List Members)
    (userNameRes : List UserName) (start : Time) :
    ∀ (pre rest : List (GoString × List SlackMessage)),
      (∀ g ∈ pre, completes w local_ members userNameRes start g) →
      groupLoop w local_ members userNameRes start (pre ++ rest)
        = (pre.flatMap (turnEvents w local_ members userNameRes start)
            ++ (groupLoop w local_ members userNameRes start rest).1,
          (groupLoop w local_ members userNameRes start rest).2) := by
  intro pre
  induction pre with
  | nil => intro rest _; simp
  | cons g pre ih =>
    intro rest h
    obtain ⟨key, value⟩ := g
    have hg : (groupStep w local_ members userNameRes start key value).2 = Flow.next :=
      h (key, value) (List.mem_cons_self _ _)
    have ih2 := ih rest (fun x hx => h x (List.mem_cons_of_mem _ hx))
    rcases hs : groupStep w local_ members userNameRes start key value with ⟨evs, flow⟩
    rw [hs] at hg
    simp only at hg
    subst hg
    simp only [List.cons_append, groupLoop, hs, List.append_eq, ih2, List.flatMap_cons,
      turnEvents, List.append_assoc]

theorem groupLoop_stop (w : World) (local_ : Location) (members : List Members)
    (userNameRes : List UserName) (start : Time) :
    ∀ (pre rest : List (GoString × List SlackMessage)),
      (∃ g ∈ pre, ¬ completes w local_ members userNameRes start g) →
      groupLoop w local_ members userNameRes start (pre ++ rest)
        = groupLoop w local_ members userNameRes start pre := by
  intro pre
  induction pre with
  | nil => intro rest h; simp at h
  | cons g pre ih =>
    intro rest h
    obtain ⟨key, value⟩ := g
    rcases hs : groupStep w local_ members userNameRes start key value with ⟨evs, flow⟩
    cases flow with
    | next =>
      have h2 : ∃ g ∈ pre, ¬ completes w local_ members userNameRes start g := by
        obtain ⟨x, hx, hc⟩ := h
        rcases List.mem_cons.mp hx with rfl | hx
        · exact absurd (by simp [completes, hs]) hc
        · exact ⟨x, hx, hc⟩
      simp only [List.cons_append, groupLoop, hs, List.append_eq, ih rest h2]
    | returned => simp only [List.cons_append, groupLoop, hs]
    | panicked => simp only [List.cons_append, groupLoop, hs]

theorem groupLoop_cons (w : World) (local_ : Location) (members : List Members)
    (userNameRes : List UserName) (start : Time) (g : GoString × List SlackMessage)
    (post : List (GoString × List SlackMessage)) :
    groupLoop w local_ members userNameRes start (g :: post)
      = if completes w local_ members userNameRes start g then
          (turnEvents w local_ members userNameRes start g
            ++ (groupLoop w local_ members userNameRes start post).1,
            (groupLoop w local_ members userNameRes start post).2)
        else groupStep w local_ members userNameRes start g.1 g.2 := by
  obtain ⟨key, value⟩ := g
  simp only [groupLoop, turnEvents, completes]
  generalize groupStep w local_ members userNameRes start key value = r
  obtain ⟨evs, flow⟩ := r
  cases flow <;> simp

theorem report_eq (w : World) (local_ : Location) (t : Time) (members : List Members)
    (userNameRes : List UserName) (start : Time) (messages : List SlackMessage) :
    report w local_ t members userNameRes start messages
      = [Event.newFile]
        ++ (groupLoop w local_ members userNameRes start (groupMessages messages)).1
        ++ ending w t (groupLoop w local_ members userNameRes start (groupMessages messages)).2 := by
  simp only [report]
  generalize groupLoop w local_ members userNameRes start (groupMessages messages) = r
  obtain ⟨evs, flow⟩ := r
  cases flow <;> simp [ending]

theorem report_reached (w : World) (local_ : Location) (t : Time) (members : List Members)
    (userNameRes : List UserName) (start : Time) (messages : List SlackMessage)
    (pre post : List (GoString × List SlackMessage)) (g : GoString × List SlackMessage)
    (hgroups : groupMessages messages = pre ++ g :: post)
    (hpre : ∀ x ∈ pre, completes w local_ members userNameRes start x) :
    report w local_ t members userNameRes start messages
      = [Event.newFile] ++ pre.flatMap (turnEvents w local_ members userNameRes start)
        ++ turnEvents w local_ members userNameRes start g
        ++ (if completes w local_ members userNameRes start g then
              (groupLoop w local_ members userNameRes start post).1
                ++ ending w t (groupLoop w local_ members userNameRes start post).2
            else ending w t (groupStep w local_ members userNameRes start g.1 g.2).2) := by
  rw [report_eq, hgroups, groupLoop_append w local_ members userNameRes start pre _ hpre,
    groupLoop_cons]
  by_cases hc : completes w local_ members userNameRes start g
  · rw [if_pos hc, if_pos hc]
    simp only [List.append_assoc]
  · rw [if_neg hc, if_neg hc]
    simp only [List.append_assoc, turnEvents]

theorem report_not_reached (w : World) (local_ : Location) (t : Time)
    (members : List Members) (userNameRes : List UserName) (start : Time)
    (messages : List SlackMessage) (pre rest : List (GoString × List SlackMessage))
    (hgroups : groupMessages messages = pre ++ rest)
    (hpre : ∃ x ∈ pre, ¬ completes w local_ members userNameRes start x) :
    report w local_ t members userNameRes start messages
      = [Event.newFile] ++ (groupLoop w local_ members userNameRes start pre).1
        ++ ending w t (groupLoop w local_ members userNameRes start pre).2 := by
  rw [report_eq, hgroups, groupLoop_stop w local_ members userNameRes start pre _ hpre]

theorem groupStep_cases (w : World) (local_ : Location) (members : List Members)
    (userNameRes : List UserName) (start : Time) (key : GoString)
    (value : List SlackMessage) :
    (sheetNameFor members userNameRes key = [] →
        groupStep w local_ members userNameRes start key value = ([], Flow.next))
      ∧ (sheetNameFor members userNameRes key ≠ [] →
          ∀ err, w.newSheet (sheetNameFor members userNameRes key) = some err →
            groupStep w local_ members userNameRes start key value
              = ([.newSheet (sheetNameFor members userNameRes key), .println [] (some err)],
                  Flow.returned))
      ∧ (sheetNameFor members userNameRes key ≠ [] →
          w.newSheet (sheetNameFor members userNameRes key) = none →
            ∃ evs flow, groupStep w local_ members userNameRes start key value
              = (Event.newSheet (sheetNameFor members userNameRes key) :: evs, flow)
              ∧ ∀ name, Event.newSheet name ∉ evs) := by
  refine ⟨fun h => by simp [groupStep, h], fun h err he => ?_, fun h hn => ?_⟩
  · have hlen : ¬ (sheetNameFor members userNameRes key).length < 1 := by
      cases hr : sheetNameFor members userNameRes key with
      | nil => exact absurd hr h
      | cons _ _ => simp
    simp only [groupStep, hlen, if_false, he]
  · have hlen : ¬ (sheetNameFor members userNameRes key).length < 1 := by
      cases hr : sheetNameFor members userNameRes key with
      | nil => exact absurd hr h
      | cons _ _ => simp
    simp only [groupStep, hlen, if_false, hn]
    cases renderRows local_ start value ⟨[], [], []⟩ with
    | none => exact ⟨_, _, rfl, by simp⟩
    | some cols => exact ⟨_, _, rfl, by simp⟩

theorem sheetNameFor_cases (members : List Members) (userNameRes : List UserName)
    (key : GoString) :
    (sheetNameFor members userNameRes key ≠ []
        ↔ ∃ v, lastMatch members userNameRes key = some v ∧ v.RealName ≠ [])
      ∧ (∀ v, lastMatch members userNameRes key = some v →
          sheetNameFor members userNameRes key = v.RealName)
      ∧ ((∀ v ∈ members, v.Id ≠ key) → sheetNameFor members userNameRes key = []) := by
  have hname := sheetNameFor_eq members userNameRes key
  cases hl : lastMatch members userNameRes key with
  | none =>
    rw [hl] at hname
    have hs : sheetNameFor members userNameRes key = [] := by simpa using hname
    simp [hs]
  | some v =>
    rw [hl] at hname
    have hs : sheetNameFor members userNameRes key = v.RealName := by simpa using hname
    refine ⟨by simp [hs], fun u hu => by cases hu; exact hs, fun hall => ?_⟩
    have hmem : v ∈ members.filter (authorized userNameRes key) :=
      List.mem_of_getLast?_eq_some hl
    rw [List.mem_filter] at hmem
    have hid : v.Id = key := by
      have := hmem.2
      simp only [authorized, Bool.and_eq_true, decide_eq_true_eq] at this
      exact this.1
    exact absurd hid (hall v hmem.1)

theorem turn_sheet (w : World) (local_ : Location) (members : List Members)
    (userNameRes : List UserName) (start : Time) (g : GoString × List SlackMessage) :
    ((∃ name, sheetCreated w name (turnEvents w local_ members userNameRes start g))
        ↔ ∃ v, lastMatch members userNameRes g.1 = some v ∧ v.RealName ≠ []
            ∧ w.newSheet v.RealName = none)
      ∧ (∀ name, Event.newSheet name ∈ turnEvents w local_ members userNameRes start g →
          ∃ v, lastMatch members userNameRes g.1 = some v ∧ name = v.RealName)
      ∧ ((∀ v ∈ members, v.Id ≠ g.1) →
          groupStep w local_ members userNameRes start g.1 g.2 = ([], Flow.next))
      ∧ (∀ v err, lastMatch members userNameRes g.1 = some v → v.RealName ≠ [] →
          w.newSheet v.RealName = some err →
          groupStep w local_ members userNameRes start g.1 g.2
            = ([.newSheet v.RealName, .println [] (some err)], Flow.returned)) := by
  obtain ⟨key, value⟩ := g
  obtain ⟨hc1, hc2, hc3⟩ := groupStep_cases w local_ members userNameRes start key value
  obtain ⟨hn1, hn2, hn3⟩ := sheetNameFor_cases members userNameRes key
  have hcalled : ∀ name,
      Event.newSheet name ∈ turnEvents w local_ members userNameRes start (key, value) →
      sheetNameFor members userNameRes key ≠ [] ∧ name = sheetNameFor members userNameRes key := by
    intro name hmem
    simp only [turnEvents] at hmem
    by_cases he : sheetNameFor members userNameRes key = []
    · rw [hc1 he] at hmem; simp at hmem
    · refine ⟨he, ?_⟩
      cases hw : w.newSheet (sheetNameFor members userNameRes key) with
      | some err => rw [hc2 he err hw] at hmem; simpa using hmem
      | none =>
        obtain ⟨evs, flow, heq, hno⟩ := hc3 he hw
        rw [heq] at hmem
        rcases List.mem_cons.mp hmem with h | h
        · exact Event.newSheet.inj h
        · exact absurd h (hno name)
  refine ⟨⟨?_, ?_⟩, ?_, ?_, ?_⟩
  · rintro ⟨name, hmem, hacc⟩
    obtain ⟨he, rfl⟩ := hcalled name hmem
    obtain ⟨v, hv, hne⟩ := hn1.mp he
    exact ⟨v, hv, hne, by rw [← hn2 v hv]; exact hacc⟩
  · rintro ⟨v, hv, hne, hacc⟩
    have hs := hn2 v hv
    have he : sheetNameFor members userNameRes key ≠ [] := by rw [hs]; exact hne
    have hw : w.newSheet (sheetNameFor members userNameRes key) = none := by rw [hs]; exact hacc
    obtain ⟨evs, flow, heq, _⟩ := hc3 he hw
    exact ⟨sheetNameFor members userNameRes key, by simp [turnEvents, heq], hw⟩
  · intro name hmem
    obtain ⟨he, rfl⟩ := hcalled name hmem
    obtain ⟨v, hv, _⟩ := hn1.mp he
    exact ⟨v, hv, hn2 v hv⟩
  · intro hall
    exact hc1 (hn3 hall)
  · intro v err hv hne hw
    have hs := hn2 v hv
    have he : sheetNameFor members userNameRes key ≠ [] := by rw [hs]; exact hne
    have := hc2 he err (by rw [hs]; exact hw)
    rw [hs] at this
    exact this

theorem renderRows_eq (local_ : Location) (start : Time) :
    ∀ (value : List SlackMessage) (cols : Columns), (∀ m ∈ value, 7 ≤ m.Ts.length) →
      renderRows local_ start value cols
        = some ⟨cols.yyyymmdd ++ (kept local_ start value).map
                (fun m => (moment local_ m).FormatDate),
            cols.hhmmss ++ (kept local_ start value).map
                (fun m => (moment local_ m).FormatClock),
            cols.slice ++ (kept local_ start value).map (fun m => m.Text)⟩ := by
  intro value
  induction value with
  | nil => intro cols _; simp [renderRows, kept]
  | cons m rest ih =>
    intro cols h
    have hm : ¬ m.Ts.length < 7 := by
      have := h m (List.mem_cons_self _ _); omega
    have ih2 := fun c => ih c (fun x hx => h x (List.mem_cons_of_mem _ hx))
    simp only [renderRows, sliceTs, hm, if_false]
    by_cases hb : (dtFromUnix local_ (m.Ts.take (m.Ts.length - 7))).Before start = true
    · have hk : kept local_ start (m :: rest) = kept local_ start rest := by
        simp [kept, moment, hb]
      rw [if_pos hb, ih2, hk]
    · have hk : kept local_ start (m :: rest) = m :: kept local_ start rest := by
        simp [kept, moment, hb]
      rw [if_neg hb, ih2, hk]
      simp [moment]

theorem groupStep_rows (w : World) (local_ : Location) (members : List Members)
    (userNameRes : List UserName) (start : Time) (key : GoString)
    (value : List SlackMessage)
    (hts : ∀ m ∈ value, 7 ≤ m.Ts.length)
    (helig : sheetNameFor members userNameRes key ≠ [])
    (hnew : w.newSheet (sheetNameFor members userNameRes key) = none) :
    groupStep w local_ members userNameRes start key value
      = ([.newSheet (sheetNameFor members userNameRes key),
          .setSheetCol (sheetNameFor members userNameRes key) (str "A1")
            ((kept local_ start value).map (fun m => (moment local_ m).FormatDate)),
          .setSheetCol (sheetNameFor members userNameRes key) (str "B1")
            ((kept local_ start value).map (fun m => (moment local_ m).FormatClock)),
          .setSheetCol (sheetNameFor members userNameRes key) (str "C1")
            ((kept local_ start value).map (fun m => m.Text)),
          .setColWidth (sheetNameFor members userNameRes key)], Flow.next) := by
  have hlen : ¬ (sheetNameFor members userNameRes key).length < 1 := by
    cases hr : sheetNameFor members userNameRes key with
    | nil => exact absurd hr helig
    | cons _ _ => simp
  simp only [groupStep, hlen, if_false, hnew, renderRows_eq local_ start value _ hts,
    List.nil_append]

/-- C3, as amended: let the groups of the fetched messages be `pre`, then `g`,
then `post`.  When every turn of `pre` runs to its end, the report is the
events of those turns, then the turn of `g`, then the rest; in that turn a
sheet is created if and only if the last member, in list order, whose id is the
sender's and whose real name starts with an authorized name exists, has a
non-empty real name and `NewSheet` accepts that name; `NewSheet` is only ever
called with that member's real name; a sender without a member of its id yields
no event (no sheet, no error); when `NewSheet` refuses the name the error is
printed and the run returns.  When a turn of `pre` does not run to its end, the
report ends there and `g` gets no turn. -/
theorem sheet_created_iff (w : World) (local_ : Location) (t : Time)
    (members : List Members) (userNameRes : List UserName) (start : Time)
    (messages : List SlackMessage) (pre post : List (GoString × List SlackMessage))
    (g : GoString × List SlackMessage)
    (hgroups : groupMessages messages = pre ++ g :: post) :
    ((∀ x ∈ pre, completes w local_ members userNameRes start x) →
        report w local_ t members userNameRes start messages
            = [Event.newFile] ++ pre.flatMap (turnEvents w local_ members userNameRes start)
              ++ turnEvents w local_ members userNameRes start g
              ++ (if completes w local_ members userNameRes start g then
                    (groupLoop w local_ members userNameRes start post).1
                      ++ ending w t (groupLoop w local_ members userNameRes start post).2
                  else ending w t (groupStep w local_ members userNameRes start g.1 g.2).2)
          ∧ ((∃ name, sheetCreated w name (turnEvents w local_ members userNameRes start g))
              ↔ ∃ v, lastMatch members userNameRes g.1 = some v ∧ v.RealName ≠ []
                  ∧ w.newSheet v.RealName = none)
          ∧ (∀ name, Event.newSheet name ∈ turnEvents w local_ members userNameRes start g →
              ∃ v, lastMatch members userNameRes g.1 = some v ∧ name = v.RealName)
          ∧ ((∀ v ∈ members, v.Id ≠ g.1) →
              groupStep w local_ members userNameRes start g.1 g.2 = ([], Flow.next))
          ∧ (∀ v err, lastMatch members userNameRes g.1 = some v → v.RealName ≠ [] →
              w.newSheet v.RealName = some err →
              groupStep w local_ members userNameRes start g.1 g.2
                = ([.newSheet v.RealName, .println [] (some err)], Flow.returned)))
      ∧ ((∃ x ∈ pre, ¬ completes w local_ members userNameRes start x) →
          report w local_ t members userNameRes start messages
            = [Event.newFile] ++ (groupLoop w local_ members userNameRes start pre).1
              ++ ending w t (groupLoop w local_ members userNameRes start pre).2) :=
  ⟨fun hpre =>
      ⟨report_reached w local_ t members userNameRes start messages pre post g hgroups hpre,
        turn_sheet w local_ members userNameRes start g⟩,
    fun hstop =>
      report_not_reached w local_ t members userNameRes start messages pre (g :: post)
        hgroups hstop⟩

set_option maxRecDepth 100000 in
/-- C3 on the messages of `U2` and `U1` with the member `taro` and the
authorized name `Taro`: the group of `U2` has no member and yields nothing, the
group of `U1` gets the sheet `Taro Yamada`. -/
theorem sheet_created_for_taro :
    groupMessages (jiroMessage :: taroMessages)
        = [(str "U2", [jiroMessage])] ++ (str "U1", taroMessages) :: []
      ∧ (∀ x ∈ [(str "U2", [jiroMessage])],
          completes taroWorld loc [taro] [⟨str "Taro"⟩] (start march15) x)
      ∧ report taroWorld loc march15 [taro] [⟨str "Taro"⟩] (start march15)
          (jiroMessage :: taroMessages)
        = [.newFile,
            .newSheet (str "Taro Yamada"),
            .setSheetCol (str "Taro Yamada") (str "A1") [str "2024-02-29", str "2024-03-01"],
            .setSheetCol (str "Taro Yamada") (str "B1") [str "00:00:00", str "12:00:00"],
            .setSheetCol (str "Taro Yamada") (str "C1") [str "edge", str "hello"],
            .setColWidth (str "Taro Yamada"),
            .saveAs (str "202403.xlsx"),
            .closeFile]
      ∧ sheetCreated taroWorld (str "Taro Yamada")
          (turnEvents taroWorld loc [taro] [⟨str "Taro"⟩] (start march15)
            (str "U1", taroMessages)) :=
  ⟨by decide, by decide,
    ((sheet_created_iff taroWorld loc march15 [taro] [⟨str "Taro"⟩] (start march15)
      (jiroMessage :: taroMessages) [(str "U2", [jiroMessage])] [] (str "U1", taroMessages)
      (by decide)).1 (by decide)).1.trans (by decide),
    by decide⟩

set_option maxRecDepth 100000 in
/-- C3 fails as stated: member `U1` has the sender's id and its (empty) real
name starts with the authorized name `""`, yet the report holds no sheet. -/
theorem sheet_missing_for_empty_real_name :
    (∃ v ∈ [taroBlank], v.Id = str "U1"
        ∧ ∃ u ∈ [(⟨[]⟩ : UserName)], HasPrefix v.RealName u.Name = true)
      ∧ report (worldOf [⟨[]⟩] [taroBlank] []) loc march15 [taroBlank] [⟨[]⟩] (start march15)
          [mkMessage "U1" "1709262000.000100" "hello"]
        = [.newFile, .saveAs (str "202403.xlsx"), .closeFile] := by
  decide

/-- C4, as amended: let the groups of the fetched messages be `pre`, then the
group `value` of sender `key`, then `post`.  When every turn of `pre` runs to
its end, the group is eligible, `NewSheet` accepts its sheet name and every
timestamp of the group has at least 7 bytes, the report writes to that sheet
exactly the group's messages whose derived moment is not before `start`, in
group order, one row (date, time, text) per message, and goes on to `post`. -/
theorem rows_are_window_filter (w : World) (local_ : Location) (t : Time)
    (members : List Members) (userNameRes : List UserName) (start : Time)
    (messages : List SlackMessage) (pre post : List (GoString × List SlackMessage))
    (key : GoString) (value : List SlackMessage)
    (hgroups : groupMessages messages = pre ++ (key, value) :: post)
    (hpre : ∀ x ∈ pre, completes w local_ members userNameRes start x)
    (hts : ∀ m ∈ value, 7 ≤ m.Ts.length)
    (helig : sheetNameFor members userNameRes key ≠ [])
    (hnew : w.newSheet (sheetNameFor members userNameRes key) = none) :
    report w local_ t members userNameRes start messages
      = [Event.newFile] ++ pre.flatMap (turnEvents w local_ members userNameRes start)
        ++ [.newSheet (sheetNameFor members userNameRes key),
            .setSheetCol (sheetNameFor members userNameRes key) (str "A1")
              ((kept local_ start value).map (fun m => (moment local_ m).FormatDate)),
            .setSheetCol (sheetNameFor members userNameRes key) (str "B1")
              ((kept local_ start value).map (fun m => (moment local_ m).FormatClock)),
            .setSheetCol (sheetNameFor members userNameRes key) (str "C1")
              ((kept local_ start value).map (fun m => m.Text)),
            .setColWidth (sheetNameFor members userNameRes key)]
        ++ (groupLoop w local_ members userNameRes start post).1
        ++ ending w t (groupLoop w local_ members userNameRes start post).2 := by
  have hstep := groupStep_rows w local_ members userNameRes start key value hts helig hnew
  have hc : completes w local_ members userNameRes start (key, value) := by
    simp only [completes, hstep]
  rw [report_reached w local_ t members userNameRes start messages pre post (key, value)
    hgroups hpre, if_pos hc]
  simp only [turnEvents, hstep, List.append_assoc]

set_option maxRecDepth 100000 in
/-- C4 on the messages of `U2` and `U1` with the window start of 2024-03-15:
of `taroMessages` the one a second before 2024-02-29T00:00:00+09:00 is left
out, the two others are rendered. -/
theorem rows_of_taroMessages :
    groupMessages (jiroMessage :: taroMessages)
        = [(str "U2", [jiroMessage])] ++ (str "U1", taroMessages) :: []
      ∧ (∀ x ∈ [(str "U2", [jiroMessage])],
          completes taroWorld loc [taro] [⟨str "Taro"⟩] (start march15) x)
      ∧ (∀ m ∈ taroMessages, 7 ≤ m.Ts.length)
      ∧ sheetNameFor [taro] [⟨str "Taro"⟩] (str "U1") ≠ []
      ∧ taroWorld.newSheet (sheetNameFor [taro] [⟨str "Taro"⟩] (str "U1")) = none
      ∧ kept loc (start march15) taroMessages
          = [mkMessage "U1" "1709132400.000100" "edge",
              mkMessage "U1" "1709262000.000100" "hello"]
      ∧ report taroWorld loc march15 [taro] [⟨str "Taro"⟩] (start march15)
          (jiroMessage :: taroMessages)
        = [.newFile,
            .newSheet (str "Taro Yamada"),
            .setSheetCol (str "Taro Yamada") (str "A1") [str "2024-02-29", str "2024-03-01"],
            .setSheetCol (str "Taro Yamada") (str "B1") [str "00:00:00", str "12:00:00"],
            .setSheetCol (str "Taro Yamada") (str "C1") [str "edge", str "hello"],
            .setColWidth (str "Taro Yamada"),
            .saveAs (str "202403.xlsx"),
            .closeFile] :=
  ⟨by decide, by decide, by decide, by decide, by decide, by decide,
    (rows_are_window_filter taroWorld loc march15 [taro] [⟨str "Taro"⟩] (start march15)
      (jiroMessage :: taroMessages) [(str "U2", [jiroMessage])] [] (str "U1") taroMessages
      (by decide) (by decide) (by decide) (by decide) (by decide)).trans (by decide)⟩

set_option maxRecDepth 100000 in
/-- C4 fails as stated: the group of `U1` is eligible (real name `Taro/Yamada`,
authorized name `Taro`) and its message lies after the window start, but
`NewSheet` refuses the name; the error is printed, the run returns and no row
is written. -/
theorem rows_lost_when_sheet_refused :
    sheetNameFor [taroSlash] [⟨str "Taro"⟩] (str "U1") = str "Taro/Yamada"
      ∧ (moment loc (mkMessage "U1" "1709262000.000100" "hello")).Before (start march15)
          = false
      ∧ report (strictWorld [⟨str "Taro"⟩] [taroSlash] []) loc march15 [taroSlash]
          [⟨str "Taro"⟩] (start march15) [mkMessage "U1" "1709262000.000100" "hello"]
        = [.newFile, .newSheet (str "Taro/Yamada"),
            .println [] (some (str "invalid sheet name")), .closeFile] := by
  decide

set_option maxRecDepth 100000 in
/-- In an eligible group the message `hello` lies after the window start and the
message after it has a 5-byte timestamp: the run panics on the slice and no row
is written, `hello` included. -/
theorem rows_lost_on_short_timestamp :
    (moment loc (mkMessage "U1" "1709262000.000100" "hello")).Before (start march15) = false
      ∧ report taroWorld loc march15 [taro] [⟨str "Taro"⟩] (start march15)
          [mkMessage "U1" "1709262000.000100" "hello", mkMessage "U1" "12345" "short"]
        = [.newFile, .newSheet (str "Taro Yamada"), .panicSlice, .closeFile] := by
  decide

/-! ## `main` -/

theorem getUserName_events (reply : Reply UserNamesResponse) (t : Time) :
    ∀ ev ∈ (getUserName reply t).1,
      ev = Event.userNamesRequest t.FormatMonth ∨ ∃ err, ev = Event.println [] err := by
  intro ev hev
  cases reply <;> simp [getUserName] at hev
  · exact Or.inl hev
  · rcases hev with h | h
    · exact Or.inl h
    · exact Or.inr ⟨_, h⟩
  · exact Or.inl hev

/-- C7: when the authorized-name fetch yields an empty list, the run consists
of that fetch and the printed line `Error get UserName:`; no member or history
request is made, no workbook is created, no sheet is added, no column is
written and no file is saved. -/
theorem main_aborts_without_names (w : World) (fuel : Nat) (t : Time)
    (h : (getUserName w.userNames t).2 = []) :
    main w fuel t
        = some ((getUserName w.userNames t).1 ++ [.println (str "Error get UserName:") none])
      ∧ ∀ evs, main w fuel t = some evs →
          Event.usersListRequest ∉ evs
            ∧ (∀ c s e k, Event.historyRequest c s e k ∉ evs)
            ∧ Event.newFile ∉ evs
            ∧ (∀ n, Event.newSheet n ∉ evs)
            ∧ (∀ n c col, Event.setSheetCol n c col ∉ evs)
            ∧ (∀ p, Event.saveAs p ∉ evs) := by
  have hm : main w fuel t
      = some ((getUserName w.userNames t).1
          ++ [.println (str "Error get UserName:") none]) := by
    rcases hg : getUserName w.userNames t with ⟨evs, names⟩
    rw [hg] at h
    simp only at h
    subst h
    simp [main, hg]
  refine ⟨hm, ?_⟩
  intro evs he
  rw [hm] at he
  cases he
  have hev := getUserName_events w.userNames t
  refine ⟨?_, ?_, ?_, ?_, ?_, ?_⟩ <;>
    · intros
      simp only [List.mem_append, List.mem_singleton, not_or]
      refine ⟨fun hmem => ?_, by simp⟩
      rcases hev _ hmem with h1 | ⟨_, h1⟩ <;> cases h1

set_option maxRecDepth 100000 in
/-- C7 on a world whose authorized-name list is empty, for the date 2024-03-15. -/
theorem main_without_names_example :
    (getUserName (worldOf [] [taro] [mkPage taroMessages ""]).userNames march15).2 = []
      ∧ main (worldOf [] [taro] [mkPage taroMessages ""]) 5 march15
        = some [.userNamesRequest (str "202403"), .println (str "Error get UserName:") none] :=
  ⟨by decide,
    (main_aborts_without_names (worldOf [] [taro] [mkPage taroMessages ""]) 5 march15
      (by decide)).1.trans (by decide)⟩

set_option maxRecDepth 100000 in
/-- C9, at the failing input: for the date 2024-03-15 the history requests
carry the start 1709132400 (2024-02-29T00:00:00+09:00, the first of the month
minus one day) and the render filter uses the same moment: the message `edge`
of that very second, which lies before the first of March, is rendered in a
row dated 2024-02-29; only the message one second earlier is dropped. -/
theorem render_threshold_is_fetch_start :
    main taroWorld 5 march15
        = some [.userNamesRequest (str "202403"), .usersListRequest,
            .historyRequest (str "C1") 1709132400 1710514799 [],
            .historyRequest (str "C1") 1709132400 1710514799 (str "c1"),
            .newFile,
            .newSheet (str "Taro Yamada"),
            .setSheetCol (str "Taro Yamada") (str "A1") [str "2024-02-29", str "2024-03-01"],
            .setSheetCol (str "Taro Yamada") (str "B1") [str "00:00:00", str "12:00:00"],
            .setSheetCol (str "Taro Yamada") (str "C1") [str "edge", str "hello"],
            .setColWidth (str "Taro Yamada"),
            .saveAs (str "202403.xlsx"),
            .closeFile]
      ∧ (start march15).Unix = 1709132400
      ∧ (start march15).Unix + 86400 = (Date 2024 3 1 0 0 0 0 loc).Unix
      ∧ (moment loc (mkMessage "U1" "1709132400.000100" "edge")).Before
          (Date 2024 3 1 0 0 0 0 loc) = true
      ∧ (moment loc (mkMessage "U1" "1709132400.000100" "edge")).Before (start march15)
          = false := by
  decide

end SlackChat
